import Mathlib

/-!
Verification of the Smart Route Navigator core (single C++ translation unit,
class RoutePlanner): the weighted-graph model, the cost functions
(traffic-scaled travel time, speed- and road-type-dependent fuel efficiency),
the Dijkstra-style shortest-time search with lazy deletion, and the
receipt/route-result reconstruction from the predecessor array.

Modelling conventions for the shallow embedding:
- C++ double is modelled by ℚ (exact arithmetic; the numeric claims checked
  here involve only exactly representable computations);
- the C++ int speed is modelled by Int;
- the two C++ enums (TrafficLevel, RoadType) are modelled by their underlying
  integer values, so the default branches of the switch statements are
  expressible;
- the fixed-size arrays indexed by city id are modelled by functions Nat → _
  together with the MAX_CITIES bound carried as a hypothesis;
- std::priority_queue is modelled by a list from which a minimal element
  (by timeCost) is removed on pop; ties in the C++ heap are broken in an
  unspecified order, and every theorem below is insensitive to the tie order;
- the while loop of findRoute is modelled with an explicit fuel parameter;
  the loop theorems prove that the chosen fuel always suffices for the queue
  to drain, so the model agrees with the run-to-completion C++ loop;
- the three console outcomes of findRoute (invalid-city message, no-connection
  message, printed receipt) are modelled by the inductive RouteOutcome.
-/

namespace RoutePlanner

/-- Configuration constants of the source file. -/
def PRICE_PETROL : ℚ := 280

/-- Maximum number of cities (size of the adjacency array). -/
def MAX_CITIES : Nat := 20

/-- The sentinel used for infinity: 1e9, a finite double in the source. -/
def INF : ℚ := 1000000000

/-- TrafficLevel enum value LOW (index 0). -/
def LOW : Int := 0

/-- TrafficLevel enum value MODERATE (index 1). -/
def MODERATE : Int := 1

/-- TrafficLevel enum value HIGH (index 2). -/
def HIGH : Int := 2

/-- TrafficLevel enum value JAMMED (index 3). -/
def JAMMED : Int := 3

/-- RoadType enum value MOTORWAY (index 0). -/
def MOTORWAY : Int := 0

/-- RoadType enum value HIGHWAY (index 1). -/
def HIGHWAY : Int := 1

/-- RoadType enum value LOCAL (index 2). -/
def LOCAL : Int := 2

/-- A directed road entry of the adjacency list (struct Edge). -/
structure Edge where
  destination : Nat
  distanceKM : ℚ
  traffic : Int
  type : Int
  roadName : String
deriving DecidableEq

/-- A priority-queue node (struct PqNode): city id and time cost. -/
structure PqNode where
  id : Nat
  timeCost : ℚ
deriving DecidableEq

/-- getTrafficMultiplier: traffic level to time multiplier, default 1.0. -/
def getTrafficMultiplier (level : Int) : ℚ :=
  if level = LOW then 1
  else if level = MODERATE then 1.2
  else if level = HIGH then 1.5
  else if level = JAMMED then 2.5
  else 1

/-- getTrafficString: traffic level to display text, default Unknown. -/
def getTrafficString (level : Int) : String :=
  if level = LOW then "Clear"
  else if level = MODERATE then "Moderate"
  else if level = HIGH then "Heavy"
  else if level = JAMMED then "Jammed"
  else "Unknown"

/-- calculateFuelEfficiency: km/L from speed and road type.
Base 16, minus 4 on LOCAL roads; above 90 km/h a quadratic drop floored at
5.0; below 40 km/h a flat drop of 3 with no floor; otherwise the base. -/
def calculateFuelEfficiency (speed : Int) (type : Int) : ℚ :=
  let baseEfficiency : ℚ := if type = LOCAL then 16 - 4 else 16
  if 90 < speed then
    let excess : ℚ := (speed : ℚ) - 90
    let drop : ℚ := excess * excess / 400
    max 5 (baseEfficiency - drop)
  else if speed < 40 then baseEfficiency - 3
  else baseEfficiency

/-- Travel time in minutes of one segment: (distance / speed) * 60, scaled by
the traffic multiplier (the physics block of findRoute, lines 224-229). -/
def segmentTravelTime (distanceKM : ℚ) (speed : Int) (level : Int) : ℚ :=
  ((distanceKM / (speed : ℚ)) * 60) * getTrafficMultiplier level

/-- The travel time findRoute assigns to one adjacency entry. -/
def edgeTime (speed : Int) (e : Edge) : ℚ :=
  segmentTravelTime e.distanceKM speed e.traffic

/-- The fuel in litres findRoute assigns to one adjacency entry. -/
def fuelSeg (speed : Int) (e : Edge) : ℚ :=
  e.distanceKM / calculateFuelEfficiency speed e.type

/-- The persistent state of the RoutePlanner class: adjacency array, city
name array and the running city count. -/
structure Planner where
  adj : Nat → List Edge
  cityNames : Nat → String
  cityCount : Nat

/-- The freshly constructed planner before any map data is loaded. -/
def emptyPlanner : Planner :=
  { adj := fun _ => [], cityNames := fun _ => "", cityCount := 0 }

/-- addCity: register a name at an id below MAX_CITIES and raise cityCount to
the highest id used. -/
def addCity (p : Planner) (id : Nat) (name : String) : Planner :=
  if id < MAX_CITIES then
    { p with
      cityNames := Function.update p.cityNames id name,
      cityCount := max p.cityCount id }
  else p

/-- addRoad: append the two directed entries of one bidirectional road. -/
def addRoad (p : Planner) (u v : Nat) (dist : ℚ) (traf : Int) (ty : Int)
    (name : String) : Planner :=
  let p1 : Planner :=
    { p with adj := Function.update p.adj u (p.adj u ++ [⟨v, dist, traf, ty, name⟩]) }
  { p1 with adj := Function.update p1.adj v (p1.adj v ++ [⟨u, dist, traf, ty, name⟩]) }

/-- A registerCity call of the data source. -/
structure CitySpec where
  cid : Nat
  cname : String

/-- A registerRoad call of the data source. -/
structure RoadSpec where
  src : Nat
  dst : Nat
  dist : ℚ
  traf : Int
  rty : Int
  rname : String

/-- Run a data-source script: all addCity calls, then all addRoad calls. -/
def buildPlanner (cities : List CitySpec) (roads : List RoadSpec) : Planner :=
  roads.foldl (fun q r => addRoad q r.src r.dst r.dist r.traf r.rty r.rname)
    (cities.foldl (fun q c => addCity q c.cid c.cname) emptyPlanner)

/-- initializeMapData: the hardcoded Pakistan inter-city network. -/
def initializeMapData : Planner :=
  buildPlanner
    [⟨1, "Karachi"⟩, ⟨2, "Hyderabad"⟩, ⟨3, "Sukkur"⟩, ⟨4, "Multan"⟩,
     ⟨5, "Faisalabad"⟩, ⟨6, "Lahore"⟩, ⟨7, "Islamabad"⟩, ⟨8, "Peshawar"⟩,
     ⟨9, "Quetta"⟩, ⟨10, "Gwadar"⟩, ⟨11, "Sialkot"⟩, ⟨12, "Abbottabad"⟩,
     ⟨13, "Gilgit"⟩, ⟨14, "Sahiwal"⟩, ⟨15, "Bahawalpur"⟩]
    [⟨1, 2, 165, JAMMED, MOTORWAY, "M-9 Motorway"⟩,
     ⟨2, 3, 330, MODERATE, HIGHWAY, "N-5 National Hwy"⟩,
     ⟨3, 4, 420, LOW, MOTORWAY, "M-5 Sukkur-Multan"⟩,
     ⟨3, 9, 390, LOW, HIGHWAY, "N-65 Highway"⟩,
     ⟨4, 5, 240, LOW, MOTORWAY, "M-4 Motorway"⟩,
     ⟨4, 15, 90, MODERATE, HIGHWAY, "N-5 Lodhran"⟩,
     ⟨15, 3, 300, LOW, HIGHWAY, "N-5 South"⟩,
     ⟨4, 14, 180, MODERATE, HIGHWAY, "N-5 GT Road"⟩,
     ⟨14, 6, 170, HIGH, HIGHWAY, "N-5 Okara"⟩,
     ⟨5, 6, 150, HIGH, MOTORWAY, "M-3 Motorway"⟩,
     ⟨5, 7, 320, LOW, MOTORWAY, "M-4 (Goa-Pindi)"⟩,
     ⟨6, 7, 375, MODERATE, MOTORWAY, "M-2 Motorway"⟩,
     ⟨6, 11, 130, MODERATE, MOTORWAY, "M-11 Sialkot"⟩,
     ⟨7, 8, 180, LOW, MOTORWAY, "M-1 Motorway"⟩,
     ⟨7, 12, 120, HIGH, HIGHWAY, "N-35 Karakoram"⟩,
     ⟨12, 13, 450, HIGH, HIGHWAY, "KKH (Hazara)"⟩,
     ⟨1, 10, 650, LOW, HIGHWAY, "N-10 Coastal Hwy"⟩,
     ⟨10, 9, 920, LOW, HIGHWAY, "N-85 Highway"⟩,
     ⟨9, 8, 800, LOW, HIGHWAY, "N-50 Zhob Route"⟩]

/-- The per-query search state of findRoute: the four relaxation arrays and
the priority queue. -/
structure DState where
  minTime : Nat → ℚ
  parent : Nat → Int
  fuelConsumed : Nat → ℚ
  pathDist : Nat → ℚ
  queue : List PqNode

/-- Remove one element with minimal timeCost from the queue (the first such
element; the C++ heap breaks ties in an unspecified order, and no theorem
below depends on the tie order). -/
def popMin : List PqNode → Option (PqNode × List PqNode)
  | [] => none
  | a :: rest =>
    match popMin rest with
    | none => some (a, [])
    | some (b, rest2) =>
      if a.timeCost ≤ b.timeCost then some (a, rest) else some (b, a :: rest2)

/-- One relaxation step of findRoute (lines 220-243) for a single adjacency
entry of the popped city u: if the path through u improves the destination,
update minTime, parent, pathDist and fuelConsumed, and push the destination
with its new time. -/
def relax1 (speed : Int) (u : Nat) (st : DState) (e : Edge) : DState :=
  if st.minTime u + edgeTime speed e < st.minTime e.destination then
    { minTime := Function.update st.minTime e.destination
        (st.minTime u + edgeTime speed e),
      parent := Function.update st.parent e.destination (u : Int),
      fuelConsumed := Function.update st.fuelConsumed e.destination
        (st.fuelConsumed u + fuelSeg speed e),
      pathDist := Function.update st.pathDist e.destination
        (st.pathDist u + e.distanceKM),
      queue := st.queue ++ [⟨e.destination, st.minTime u + edgeTime speed e⟩] }
  else st

/-- Process all adjacency entries of the popped city in definition order. -/
def relaxEdges (speed : Int) (u : Nat) (es : List Edge) (st : DState) : DState :=
  es.foldl (relax1 speed u) st

/-- The main loop of findRoute with an explicit fuel bound: pop a minimal
entry, discard it if stale, otherwise relax all outgoing roads. -/
def dijkstraLoop (p : Planner) (speed : Int) : Nat → DState → DState
  | 0, st => st
  | fuel + 1, st =>
    match popMin st.queue with
    | none => st
    | some (node, rest) =>
      if st.minTime node.id < node.timeCost then
        dijkstraLoop p speed fuel { st with queue := rest }
      else
        dijkstraLoop p speed fuel
          (relaxEdges speed node.id (p.adj node.id) { st with queue := rest })

/-- Total number of directed adjacency entries over all valid city slots;
the loop fuel totalDeg + 2 is proved sufficient for the queue to drain. -/
def totalDeg (p : Planner) : Nat :=
  Finset.sum (Finset.range MAX_CITIES) (fun u => (p.adj u).length)

/-- The fresh search state of one query: all times infinite except the start
at 0, no parents, zero accumulators, the start pushed with time 0. -/
def initState (startNode : Nat) : DState :=
  { minTime := Function.update (fun _ => INF) startNode 0,
    parent := fun _ => -1,
    fuelConsumed := fun _ => 0,
    pathDist := fun _ => 0,
    queue := [⟨startNode, 0⟩] }

/-- One leg of the printed receipt: endpoints, the road found by the first
destination match in the adjacency list, its condition text and distance. -/
structure Leg where
  legFrom : Nat
  legTo : Nat
  roadName : String
  cond : String
  dist : ℚ
deriving DecidableEq

/-- The route result consumed by the presentation layer. -/
structure RouteResult where
  legs : List Leg
  totalTime : ℚ
  totalDist : ℚ
  totalFuel : ℚ
deriving DecidableEq

/-- The three observable outcomes of findRoute: the invalid-city message,
the no-connection message, or a printed receipt. -/
inductive RouteOutcome where
  | invalidCity : RouteOutcome
  | unreachable : RouteOutcome
  | ok : RouteResult → RouteOutcome
deriving DecidableEq

/-- Walk the predecessor array from a city back towards the start (the
backtracking loop of printDetailedReceipt), producing destination-first
order; fuel MAX_CITIES + 1 is proved sufficient. -/
def backtrack (parent : Nat → Int) : Nat → Nat → List Nat
  | 0, _ => []
  | fuel + 1, v =>
    v :: (if parent v = -1 then [] else backtrack parent fuel (parent v).toNat)

/-- Build one receipt leg for consecutive cities u, v: the first road in the
adjacency list of u whose destination is v, Unknown/0 if none matches. -/
def mkLeg (p : Planner) (u v : Nat) : Leg :=
  match (p.adj u).find? (fun e => e.destination == v) with
  | some e => ⟨u, v, e.roadName, getTrafficString e.traffic, e.distanceKM⟩
  | none => ⟨u, v, "Unknown", "Unknown", 0⟩

/-- Build the receipt legs over consecutive pairs of the start-to-end city
sequence. -/
def mkLegs (p : Planner) : List Nat → List Leg
  | u :: v :: rest => mkLeg p u v :: mkLegs p (v :: rest)
  | _ => []

/-- printDetailedReceipt: reconstruct the path from the predecessor array and
assemble legs and totals (the I/O formatting itself carries no data and is
not modelled). -/
def printDetailedReceipt (p : Planner) (endNode : Nat) (parent : Nat → Int)
    (totalTime totalDist totalFuel : ℚ) : RouteResult :=
  let path := backtrack parent (MAX_CITIES + 1) endNode
  { legs := mkLegs p path.reverse,
    totalTime := totalTime,
    totalDist := totalDist,
    totalFuel := totalFuel }

/-- The post-loop step of findRoute: either report no connection (time still
at the INF sentinel) or build the receipt from the final search state. -/
def routeOutcomeOf (p : Planner) (endNode : Nat) (final : DState) :
    RouteOutcome :=
  if final.minTime endNode = INF then RouteOutcome.unreachable
  else
    RouteOutcome.ok
      (printDetailedReceipt p endNode final.parent (final.minTime endNode)
        (final.pathDist endNode) (final.fuelConsumed endNode))

/-- findRoute: validate the city ids against the range 1..cityCount, run the
relaxation loop, and report the outcome. -/
def findRoute (p : Planner) (startNode endNode : Nat) (speed : Int) :
    RouteOutcome :=
  if startNode < 1 ∨ p.cityCount < startNode ∨ endNode < 1 ∨ p.cityCount < endNode then
    RouteOutcome.invalidCity
  else
    routeOutcomeOf p endNode (dijkstraLoop p speed (totalDeg p + 2) (initState startNode))

/-- A path in the adjacency structure: a list of consecutive road entries. -/
inductive IsPath (p : Planner) : Nat → Nat → List Edge → Prop where
  | nil (u : Nat) : IsPath p u u []
  | cons {u v : Nat} {es : List Edge} (e : Edge) (he : e ∈ p.adj u)
      (h : IsPath p e.destination v es) : IsPath p u v (e :: es)

/-- Total travel time of a path at a given speed. -/
def pathTime (speed : Int) (es : List Edge) : ℚ :=
  (es.map (edgeTime speed)).sum

/-- Total length of a path in kilometres. -/
def pathDistSum (es : List Edge) : ℚ :=
  (es.map (fun e => e.distanceKM)).sum

/-- Total fuel of a path in litres at a given speed. -/
def pathFuelSum (speed : Int) (es : List Edge) : ℚ :=
  (es.map (fuelSeg speed)).sum

/-- The city sequence visited by a path starting at u. -/
def pathVertices (u : Nat) (es : List Edge) : List Nat :=
  u :: es.map (fun e => e.destination)

/-- Validity of the graph data: every adjacency entry of a valid slot points
below MAX_CITIES and has positive length (the documented road invariant). -/
def ValidGraph (p : Planner) : Prop :=
  ∀ u, u < MAX_CITIES → ∀ e ∈ p.adj u,
    e.destination < MAX_CITIES ∧ 0 < e.distanceKM

/-- Symmetry of the adjacency structure: every directed entry has a matching
reverse entry with the same length, traffic and road type, as produced by
addRoad. -/
def SymGraph (p : Planner) : Prop :=
  ∀ u, u < MAX_CITIES → ∀ e ∈ p.adj u,
    ∃ e2 ∈ p.adj e.destination,
      e2.destination = u ∧ e2.distanceKM = e.distanceKM ∧
      e2.traffic = e.traffic ∧ e2.type = e.type

/-- Total time of an outcome, when it reports one. -/
def totalTimeOf : RouteOutcome → Option ℚ
  | RouteOutcome.ok r => some r.totalTime
  | _ => none

/-- The predecessor-array bookkeeping maintained by the relaxation loop:
every city with a finite time other than the start has a recorded parent and
a recording road entry; the recorded time dominates the parent time plus the
road time, and either the distance/fuel snapshots are consistent with the
parent or the parent has strictly improved since the recording (in which
case the relaxation loop revisits the city before the queue drains). -/
def ParentInv (p : Planner) (speed : Int) (startNode : Nat) (st : DState) : Prop :=
  ∀ v, v ≠ startNode → st.minTime v < INF →
    ∃ u, u < MAX_CITIES ∧ ∃ e ∈ p.adj u,
      st.parent v = (u : Int) ∧ e.destination = v ∧
      st.minTime u + edgeTime speed e ≤ st.minTime v ∧
      ((st.minTime v = st.minTime u + edgeTime speed e ∧
        st.pathDist v = st.pathDist u + e.distanceKM ∧
        st.fuelConsumed v = st.fuelConsumed u + fuelSeg speed e) ∨
       st.minTime u + edgeTime speed e < st.minTime v)

/-- The loop invariant of findRoute, with a ghost set F of frozen (settled)
cities: queue keys are finite, within range and dominate the recorded times;
frozen cities lie below every queue key and have all outgoing roads relaxed;
every unfrozen city with a finite time has a live queue entry at exactly its
recorded time; times are nonnegative, capped by INF, infinite out of range,
zero at the start; and the predecessor bookkeeping holds. -/
structure Inv (p : Planner) (speed : Int) (startNode : Nat) (F : Finset Nat)
    (st : DState) : Prop where
  k_id : ∀ q ∈ st.queue, q.id < MAX_CITIES
  k_ge : ∀ q ∈ st.queue, st.minTime q.id ≤ q.timeCost
  k_fin : ∀ q ∈ st.queue, q.timeCost < INF
  fro_lt : ∀ x ∈ F, x < MAX_CITIES
  fro_le : ∀ x ∈ F, ∀ q ∈ st.queue, st.minTime x ≤ q.timeCost
  fro_rel : ∀ x ∈ F, ∀ e ∈ p.adj x,
    st.minTime e.destination ≤ st.minTime x + edgeTime speed e
  act : ∀ v, v < MAX_CITIES → st.minTime v < INF → v ∉ F →
    ∃ q ∈ st.queue, q.id = v ∧ q.timeCost = st.minTime v
  le_INF : ∀ v, st.minTime v ≤ INF
  nonneg : ∀ v, 0 ≤ st.minTime v
  far : ∀ v, MAX_CITIES ≤ v → st.minTime v = INF
  s0 : st.minTime startNode = 0
  sP : st.parent startNode = -1 ∧ st.pathDist startNode = 0 ∧
    st.fuelConsumed startNode = 0
  pinv : ParentInv p speed startNode st

/-- The invariant during the relaxation of the edges of the popped city u at
popped key t: like Inv, but u is not yet frozen, the live-entry clause
exempts u (its entry was just popped), all remaining keys are at least t,
and the time of u stays pinned at t. -/
structure Mid (p : Planner) (speed : Int) (startNode : Nat) (F : Finset Nat)
    (u : Nat) (t : ℚ) (st : DState) : Prop where
  k_id : ∀ q ∈ st.queue, q.id < MAX_CITIES
  k_ge : ∀ q ∈ st.queue, st.minTime q.id ≤ q.timeCost
  k_fin : ∀ q ∈ st.queue, q.timeCost < INF
  k_t : ∀ q ∈ st.queue, t ≤ q.timeCost
  fro_lt : ∀ x ∈ F, x < MAX_CITIES
  fro_le : ∀ x ∈ F, st.minTime x ≤ t
  fro_rel : ∀ x ∈ F, ∀ e ∈ p.adj x,
    st.minTime e.destination ≤ st.minTime x + edgeTime speed e
  act : ∀ v, v < MAX_CITIES → st.minTime v < INF → v ∉ F → v ≠ u →
    ∃ q ∈ st.queue, q.id = v ∧ q.timeCost = st.minTime v
  le_INF : ∀ v, st.minTime v ≤ INF
  nonneg : ∀ v, 0 ≤ st.minTime v
  far : ∀ v, MAX_CITIES ≤ v → st.minTime v = INF
  s0 : st.minTime startNode = 0
  sP : st.parent startNode = -1 ∧ st.pathDist startNode = 0 ∧
    st.fuelConsumed startNode = 0
  pinv : ParentInv p speed startNode st
  mu : st.minTime u = t

/-- Termination measure of the loop: live queue entries plus the adjacency
degrees of the not-yet-frozen city slots. -/
def measure (p : Planner) (F : Finset Nat) (st : DState) : Nat :=
  st.queue.length +
    Finset.sum (Finset.range MAX_CITIES \ F) (fun u => (p.adj u).length)

/-- Rank of a city in a search state: how many valid slots have a strictly
smaller recorded time (the well-founded measure for walking parents). -/
def rank (st : DState) (v : Nat) : Nat :=
  ((Finset.range MAX_CITIES).filter (fun x => st.minTime x < st.minTime v)).card

/-- A two-city map with one 100 km clear motorway, used to instantiate the
general theorems on concrete inputs. -/
def pW : Planner :=
  buildPlanner [⟨1, "A"⟩, ⟨2, "B"⟩] [⟨1, 2, 100, LOW, MOTORWAY, "R1"⟩]

/-- The directed entry from city 1 to city 2 of pW. -/
def wEdge : Edge := ⟨2, 100, LOW, MOTORWAY, "R1"⟩

/-- A two-city map whose single road is 20 000 000 km long, so the only
path From 1 to 2 takes 1.2e9 minutes at speed 1 — at or above the finite
INF sentinel (all involved doubles are exact, so the rational model agrees
with the source here). -/
def pC1x : Planner :=
  buildPlanner [⟨1, "A"⟩, ⟨2, "B"⟩] [⟨1, 2, 20000000, LOW, MOTORWAY, "long"⟩]

/-- A map registering only city ids 1 and 5, leaving ids 2, 3, 4 unregistered
but below cityCount. -/
def pC6 : Planner := buildPlanner [⟨1, "Karachi"⟩, ⟨5, "Lahore"⟩] []

/-- A second map registering only city ids 1 and 5 (kept separate from pC6
so each claim has its own supporting data). -/
def pC10 : Planner := buildPlanner [⟨1, "Karachi"⟩, ⟨5, "Lahore"⟩] []

/-- A three-city map where the direct 1-2 road is jammed and the two-leg
detour through city 3 is strictly faster. -/
def pC9x : Planner :=
  buildPlanner [⟨1, "A"⟩, ⟨2, "B"⟩, ⟨3, "C"⟩]
    [⟨1, 2, 100, JAMMED, MOTORWAY, "direct"⟩,
     ⟨1, 3, 10, LOW, MOTORWAY, "a"⟩,
     ⟨3, 2, 10, LOW, MOTORWAY, "b"⟩]

/-- A two-city map with no roads at all (a disconnected pair). -/
def pW5 : Planner := buildPlanner [⟨1, "A"⟩, ⟨2, "B"⟩] []

/-- The directed entry from city 2 back to city 1 of pW. -/
def wEdgeRev : Edge := ⟨1, 100, LOW, MOTORWAY, "R1"⟩

theorem popMin_none_iff (l : List PqNode) : popMin l = none ↔ l = [] := by
  cases l with
  | nil => simp [popMin]
  | cons a rest =>
    simp only [popMin]
    cases h : popMin rest with
    | none => simp
    | some br =>
      obtain ⟨b, r2⟩ := br
      by_cases hc : a.timeCost ≤ b.timeCost <;> simp [hc]

theorem popMin_spec (l : List PqNode) (a : PqNode) (r : List PqNode)
    (h : popMin l = some (a, r)) :
    l.Perm (a :: r) ∧ ∀ x ∈ l, a.timeCost ≤ x.timeCost := by
  induction l generalizing a r with
  | nil => simp [popMin] at h
  | cons hd tl ih =>
    simp only [popMin] at h
    cases htl : popMin tl with
    | none =>
      simp only [htl] at h
      obtain ⟨rfl, rfl⟩ := Prod.mk.injEq hd [] a r |>.mp (Option.some.inj h)
      have htl2 : tl = [] := (popMin_none_iff tl).mp htl
      subst htl2
      refine ⟨List.Perm.refl _, ?_⟩
      intro x hx
      rw [List.mem_singleton] at hx
      subst hx
      exact le_refl _
    | some br =>
      obtain ⟨b, r2⟩ := br
      simp only [htl] at h
      obtain ⟨hperm, hmin⟩ := ih b r2 htl
      by_cases hc : hd.timeCost ≤ b.timeCost
      · rw [if_pos hc] at h
        obtain ⟨rfl, rfl⟩ := Prod.mk.injEq hd tl a r |>.mp (Option.some.inj h)
        refine ⟨List.Perm.refl _, ?_⟩
        intro x hx
        rcases List.mem_cons.mp hx with rfl | hx2
        · exact le_refl _
        · exact le_trans hc (hmin x hx2)
      · rw [if_neg hc] at h
        obtain ⟨rfl, rfl⟩ := Prod.mk.injEq b (hd :: r2) a r |>.mp (Option.some.inj h)
        refine ⟨(hperm.cons hd).trans (List.Perm.swap b hd r2), ?_⟩
        intro x hx
        rcases List.mem_cons.mp hx with rfl | hx2
        · exact le_of_lt (lt_of_not_le hc)
        · exact hmin x hx2

theorem getTrafficMultiplier_ge_one (level : Int) :
    1 ≤ getTrafficMultiplier level := by
  unfold getTrafficMultiplier
  split_ifs <;> norm_num

theorem getTrafficMultiplier_pos (level : Int) :
    0 < getTrafficMultiplier level :=
  lt_of_lt_of_le one_pos (getTrafficMultiplier_ge_one level)

theorem edgeTime_pos {speed : Int} (e : Edge) (hsp : 0 < speed)
    (hd : 0 < e.distanceKM) : 0 < edgeTime speed e := by
  unfold edgeTime segmentTravelTime
  have hs : (0 : ℚ) < (speed : ℚ) := by exact_mod_cast hsp
  have h1 : 0 < e.distanceKM / (speed : ℚ) := div_pos hd hs
  have h2 := getTrafficMultiplier_pos e.traffic
  have h3 : (0 : ℚ) < 60 := by norm_num
  exact mul_pos (mul_pos h1 h3) h2

theorem relaxEdges_nil (speed : Int) (u : Nat) (st : DState) :
    relaxEdges speed u [] st = st := rfl

theorem relaxEdges_cons (speed : Int) (u : Nat) (e : Edge) (es : List Edge)
    (st : DState) :
    relaxEdges speed u (e :: es) st = relaxEdges speed u es (relax1 speed u st e) := rfl

theorem relax1_minTime_le (speed : Int) (u : Nat) (st : DState) (e : Edge)
    (z : Nat) : (relax1 speed u st e).minTime z ≤ st.minTime z := by
  unfold relax1
  split
  · rename_i h
    by_cases hz : z = e.destination
    · subst hz
      simp only [Function.update_same]
      exact le_of_lt h
    · simp only [Function.update_noteq hz]
      exact le_refl _
  · exact le_refl _

theorem relaxEdges_minTime_le (speed : Int) (u : Nat) :
    ∀ (es : List Edge) (st : DState) (z : Nat),
      (relaxEdges speed u es st).minTime z ≤ st.minTime z := by
  intro es
  induction es with
  | nil => intro st z; exact le_refl _
  | cons e rest ih =>
    intro st z
    rw [relaxEdges_cons]
    exact le_trans (ih (relax1 speed u st e) z) (relax1_minTime_le speed u st e z)

theorem relax1_minTime_u (speed : Int) (u : Nat) (st : DState) (e : Edge)
    (hw : 0 ≤ edgeTime speed e) :
    (relax1 speed u st e).minTime u = st.minTime u := by
  unfold relax1
  split
  · rename_i h
    by_cases hz : u = e.destination
    · rw [← hz] at h
      exfalso
      linarith
    · simp only [Function.update_noteq hz]
  · rfl

theorem relax1_rel_self (speed : Int) (u : Nat) (st : DState) (e : Edge) :
    (relax1 speed u st e).minTime e.destination ≤
      st.minTime u + edgeTime speed e := by
  unfold relax1
  split
  · simp only [Function.update_same]
    exact le_refl _
  · rename_i h
    exact le_of_not_lt h

theorem relaxEdges_post (speed : Int) (u : Nat) :
    ∀ (es : List Edge) (st : DState),
      (∀ e ∈ es, 0 ≤ edgeTime speed e) →
      ∀ e ∈ es, (relaxEdges speed u es st).minTime e.destination ≤
        st.minTime u + edgeTime speed e := by
  intro es
  induction es with
  | nil => intro st _ e he; exact absurd he (List.not_mem_nil e)
  | cons e0 rest ih =>
    intro st hw e he
    rw [relaxEdges_cons]
    rcases List.mem_cons.mp he with rfl | he2
    · refine le_trans (relaxEdges_minTime_le speed u rest _ e.destination) ?_
      exact relax1_rel_self speed u st e
    · have hu0 : (relax1 speed u st e0).minTime u = st.minTime u :=
        relax1_minTime_u speed u st e0 (hw e0 (List.mem_cons_self e0 rest))
      have := ih (relax1 speed u st e0) (fun x hx => hw x (List.mem_cons_of_mem e0 hx)) e he2
      rw [hu0] at this
      exact this

theorem relax1_queue_len (speed : Int) (u : Nat) (st : DState) (e : Edge) :
    (relax1 speed u st e).queue.length ≤ st.queue.length + 1 := by
  unfold relax1
  split
  · simp
  · exact Nat.le_succ _

theorem relaxEdges_queue_len (speed : Int) (u : Nat) :
    ∀ (es : List Edge) (st : DState),
      (relaxEdges speed u es st).queue.length ≤ st.queue.length + es.length := by
  intro es
  induction es with
  | nil => intro st; exact Nat.le_refl _
  | cons e rest ih =>
    intro st
    rw [relaxEdges_cons]
    calc (relaxEdges speed u rest (relax1 speed u st e)).queue.length
        ≤ (relax1 speed u st e).queue.length + rest.length := ih _
      _ ≤ (st.queue.length + 1) + rest.length :=
          Nat.add_le_add_right (relax1_queue_len speed u st e) _
      _ = st.queue.length + (e :: rest).length := by
          simp [List.length_cons]
          omega

theorem relaxEdges_noop (speed : Int) (u : Nat) :
    ∀ (es : List Edge) (st : DState),
      (∀ e ∈ es, ¬ st.minTime u + edgeTime speed e < st.minTime e.destination) →
      relaxEdges speed u es st = st := by
  intro es
  induction es with
  | nil => intro st _; rfl
  | cons e rest ih =>
    intro st h
    rw [relaxEdges_cons]
    have h1 : relax1 speed u st e = st := by
      unfold relax1
      rw [if_neg (h e (List.mem_cons_self e rest))]
    rw [h1]
    exact ih st (fun x hx => h x (List.mem_cons_of_mem e hx))

theorem relax1_fired (speed : Int) (u : Nat) (st : DState) (e : Edge)
    (hrel : st.minTime u + edgeTime speed e < st.minTime e.destination) :
    (relax1 speed u st e).minTime =
      Function.update st.minTime e.destination (st.minTime u + edgeTime speed e) ∧
    (relax1 speed u st e).parent =
      Function.update st.parent e.destination (u : Int) ∧
    (relax1 speed u st e).pathDist =
      Function.update st.pathDist e.destination (st.pathDist u + e.distanceKM) ∧
    (relax1 speed u st e).fuelConsumed =
      Function.update st.fuelConsumed e.destination (st.fuelConsumed u + fuelSeg speed e) ∧
    (relax1 speed u st e).queue =
      st.queue ++ [⟨e.destination, st.minTime u + edgeTime speed e⟩] := by
  unfold relax1
  rw [if_pos hrel]
  exact ⟨rfl, rfl, rfl, rfl, rfl⟩

theorem relax1_mid (p : Planner) (speed : Int) (startNode : Nat)
    (F : Finset Nat) (u : Nat) (t : ℚ) (st : DState) (e : Edge)
    (hg : ValidGraph p) (hsp : 0 < speed) (hu : u < MAX_CITIES)
    (he : e ∈ p.adj u) (hm : Mid p speed startNode F u t st) :
    Mid p speed startNode F u t (relax1 speed u st e) := by
  obtain ⟨hdest, hdpos⟩ := hg u hu e he
  have hw : 0 < edgeTime speed e := edgeTime_pos e hsp hdpos
  by_cases hrel : st.minTime u + edgeTime speed e < st.minTime e.destination
  swap
  · unfold relax1
    rw [if_neg hrel]
    exact hm
  obtain ⟨hM, hP, hD, hFu, hQ⟩ := relax1_fired speed u st e hrel
  have hvu : e.destination ≠ u := by
    intro hq
    rw [hq] at hrel
    linarith
  have hvs : e.destination ≠ startNode := by
    intro hq
    rw [hq, hm.s0] at hrel
    have h1 := hm.nonneg u
    linarith
  have hvF : e.destination ∉ F := by
    intro hq
    have h1 := hm.fro_le _ hq
    rw [← hm.mu] at h1
    linarith
  have hAfin : st.minTime u + edgeTime speed e < INF :=
    lt_of_lt_of_le hrel (hm.le_INF e.destination)
  refine ⟨?_, ?_, ?_, ?_, hm.fro_lt, ?_, ?_, ?_, ?_, ?_, ?_, ?_, ?_, ?_, ?_⟩
  · intro q hq
    rw [hQ] at hq
    rcases List.mem_append.mp hq with hq1 | hq2
    · exact hm.k_id q hq1
    · rw [List.mem_singleton] at hq2
      subst hq2
      exact hdest
  · intro q hq
    rw [hQ] at hq
    rw [hM]
    rcases List.mem_append.mp hq with hq1 | hq2
    · by_cases hz : q.id = e.destination
      · rw [hz, Function.update_same]
        exact le_of_lt (lt_of_lt_of_le hrel (hz ▸ hm.k_ge q hq1))
      · rw [Function.update_noteq hz]
        exact hm.k_ge q hq1
    · rw [List.mem_singleton] at hq2
      subst hq2
      rw [Function.update_same]
  · intro q hq
    rw [hQ] at hq
    rcases List.mem_append.mp hq with hq1 | hq2
    · exact hm.k_fin q hq1
    · rw [List.mem_singleton] at hq2
      subst hq2
      exact hAfin
  · intro q hq
    rw [hQ] at hq
    rcases List.mem_append.mp hq with hq1 | hq2
    · exact hm.k_t q hq1
    · rw [List.mem_singleton] at hq2
      subst hq2
      rw [← hm.mu]
      exact le_add_of_nonneg_right (le_of_lt hw)
  · intro x hx
    have hx_ne : x ≠ e.destination := by
      intro hq
      rw [hq] at hx
      exact hvF hx
    rw [hM, Function.update_noteq hx_ne]
    exact hm.fro_le x hx
  · intro x hx e2 he2
    have hx_ne : x ≠ e.destination := by
      intro hq
      rw [hq] at hx
      exact hvF hx
    rw [hM, Function.update_noteq hx_ne]
    have h1 : (relax1 speed u st e).minTime e2.destination ≤ st.minTime e2.destination :=
      relax1_minTime_le speed u st e e2.destination
    rw [hM] at h1
    exact le_trans h1 (hm.fro_rel x hx e2 he2)
  · intro v hv hfin hvF2 hvu2
    rw [hM] at hfin
    rw [hM, hQ]
    by_cases hz : v = e.destination
    · subst hz
      refine ⟨⟨e.destination, st.minTime u + edgeTime speed e⟩,
        List.mem_append_right _ (List.mem_singleton_self _), rfl, ?_⟩
      rw [Function.update_same]
    · rw [Function.update_noteq hz] at hfin
      obtain ⟨q, hq1, hq2, hq3⟩ := hm.act v hv hfin hvF2 hvu2
      refine ⟨q, List.mem_append_left _ hq1, hq2, ?_⟩
      rw [Function.update_noteq hz]
      exact hq3
  · intro v
    rw [hM]
    by_cases hz : v = e.destination
    · subst hz
      rw [Function.update_same]
      exact le_of_lt hAfin
    · rw [Function.update_noteq hz]
      exact hm.le_INF v
  · intro v
    rw [hM]
    by_cases hz : v = e.destination
    · subst hz
      rw [Function.update_same]
      exact add_nonneg (hm.nonneg u) (le_of_lt hw)
    · rw [Function.update_noteq hz]
      exact hm.nonneg v
  · intro v hfar
    have hz : v ≠ e.destination := by
      intro hq
      rw [hq] at hfar
      omega
    rw [hM, Function.update_noteq hz]
    exact hm.far v hfar
  · rw [hM, Function.update_noteq (fun hq => hvs hq.symm)]
    exact hm.s0
  · refine ⟨?_, ?_, ?_⟩
    · rw [hP, Function.update_noteq (fun hq => hvs hq.symm)]
      exact hm.sP.1
    · rw [hD, Function.update_noteq (fun hq => hvs hq.symm)]
      exact hm.sP.2.1
    · rw [hFu, Function.update_noteq (fun hq => hvs hq.symm)]
      exact hm.sP.2.2
  · intro v hvs2 hfin
    rw [hM] at hfin
    by_cases hz : v = e.destination
    · subst hz
      refine ⟨u, hu, e, he, ?_, rfl, ?_, Or.inl ⟨?_, ?_, ?_⟩⟩
      · rw [hP, Function.update_same]
      · rw [hM, Function.update_noteq hvu.symm, Function.update_same]
      · rw [hM, Function.update_noteq hvu.symm, Function.update_same]
      · rw [hD, Function.update_noteq hvu.symm, Function.update_same]
      · rw [hFu, Function.update_noteq hvu.symm, Function.update_same]
    · rw [Function.update_noteq hz] at hfin
      obtain ⟨u2, hu2, e2, he2, hpar, hdest2, hle, hsnap⟩ := hm.pinv v hvs2 hfin
      refine ⟨u2, hu2, e2, he2, ?_, hdest2, ?_, ?_⟩
      · rw [hP, Function.update_noteq hz]
        exact hpar
      · by_cases hz2 : u2 = e.destination
        · subst hz2
          rw [hM, Function.update_same, Function.update_noteq hz]
          exact le_of_lt (lt_of_lt_of_le (by linarith) hle)
        · rw [hM, Function.update_noteq hz2, Function.update_noteq hz]
          exact hle
      · by_cases hz2 : u2 = e.destination
        · subst hz2
          refine Or.inr ?_
          rw [hM, Function.update_same, Function.update_noteq hz]
          exact lt_of_lt_of_le (by linarith) hle
        · rcases hsnap with ⟨h1, h2, h3⟩ | h4
          · refine Or.inl ⟨?_, ?_, ?_⟩
            · rw [hM, Function.update_noteq hz2, Function.update_noteq hz]
              exact h1
            · rw [hD, Function.update_noteq hz2, Function.update_noteq hz]
              exact h2
            · rw [hFu, Function.update_noteq hz2, Function.update_noteq hz]
              exact h3
          · refine Or.inr ?_
            rw [hM, Function.update_noteq hz2, Function.update_noteq hz]
            exact h4
  · rw [hM, Function.update_noteq hvu.symm]
    exact hm.mu
theorem relaxEdges_mid (p : Planner) (speed : Int) (startNode : Nat)
    (F : Finset Nat) (u : Nat) (t : ℚ)
    (hg : ValidGraph p) (hsp : 0 < speed) (hu : u < MAX_CITIES) :
    ∀ (es : List Edge) (st : DState), (∀ e ∈ es, e ∈ p.adj u) →
      Mid p speed startNode F u t st →
      Mid p speed startNode F u t (relaxEdges speed u es st) := by
  intro es
  induction es with
  | nil => intro st _ hm; exact hm
  | cons e rest ih =>
    intro st hsub hm
    rw [relaxEdges_cons]
    exact ih (relax1 speed u st e)
      (fun x hx => hsub x (List.mem_cons_of_mem e hx))
      (relax1_mid p speed startNode F u t st e hg hsp hu
        (hsub e (List.mem_cons_self e rest)) hm)

theorem step_settle (p : Planner) (speed : Int) (startNode : Nat)
    (F : Finset Nat) (u : Nat) (t : ℚ) (st : DState)
    (hg : ValidGraph p) (hsp : 0 < speed) (hu : u < MAX_CITIES)
    (hm : Mid p speed startNode F u t st) :
    Inv p speed startNode (insert u F) (relaxEdges speed u (p.adj u) st) := by
  have hm2 : Mid p speed startNode F u t (relaxEdges speed u (p.adj u) st) :=
    relaxEdges_mid p speed startNode F u t hg hsp hu (p.adj u) st (fun _ hx => hx) hm
  have hpost : ∀ e ∈ p.adj u,
      (relaxEdges speed u (p.adj u) st).minTime e.destination ≤ t + edgeTime speed e := by
    intro e he
    have hnn : ∀ x ∈ p.adj u, 0 ≤ edgeTime speed x := by
      intro x hx
      exact le_of_lt (edgeTime_pos x hsp (hg u hu x hx).2)
    have := relaxEdges_post speed u (p.adj u) st hnn e he
    rw [hm.mu] at this
    exact this
  refine ⟨hm2.k_id, hm2.k_ge, hm2.k_fin, ?_, ?_, ?_, ?_, hm2.le_INF, hm2.nonneg,
    hm2.far, hm2.s0, hm2.sP, hm2.pinv⟩
  · intro x hx
    rcases Finset.mem_insert.mp hx with rfl | hx2
    · exact hu
    · exact hm2.fro_lt x hx2
  · intro x hx q hq
    rcases Finset.mem_insert.mp hx with rfl | hx2
    · rw [hm2.mu]
      exact hm2.k_t q hq
    · exact le_trans (hm2.fro_le x hx2) (hm2.k_t q hq)
  · intro x hx e2 he2
    rcases Finset.mem_insert.mp hx with rfl | hx2
    · rw [hm2.mu]
      exact hpost e2 he2
    · exact hm2.fro_rel x hx2 e2 he2
  · intro v hv hfin hvF
    exact hm2.act v hv hfin (fun hq => hvF (Finset.mem_insert_of_mem hq))
      (fun hq => hvF (hq ▸ Finset.mem_insert_self u F))

theorem pop_nonstale_mid (p : Planner) (speed : Int) (startNode : Nat)
    (F : Finset Nat) (st : DState) (a : PqNode) (rest : List PqNode)
    (hInv : Inv p speed startNode F st)
    (hpop : popMin st.queue = some (a, rest))
    (hns : ¬ st.minTime a.id < a.timeCost)
    (huF : a.id ∉ F) :
    Mid p speed startNode F a.id a.timeCost { st with queue := rest } ∧
      st.minTime a.id = a.timeCost := by
  obtain ⟨hperm, hmin⟩ := popMin_spec st.queue a rest hpop
  have haq : a ∈ st.queue := hperm.mem_iff.mpr (List.mem_cons_self a rest)
  have ht : st.minTime a.id = a.timeCost := le_antisymm (hInv.k_ge a haq) (not_lt.mp hns)
  have hsub : ∀ q ∈ rest, q ∈ st.queue :=
    fun q hq => hperm.mem_iff.mpr (List.mem_cons_of_mem a hq)
  refine ⟨⟨?_, ?_, ?_, ?_, hInv.fro_lt, ?_, hInv.fro_rel, ?_, hInv.le_INF,
    hInv.nonneg, hInv.far, hInv.s0, hInv.sP, hInv.pinv, ht⟩, ht⟩
  · intro q hq
    exact hInv.k_id q (hsub q hq)
  · intro q hq
    exact hInv.k_ge q (hsub q hq)
  · intro q hq
    exact hInv.k_fin q (hsub q hq)
  · intro q hq
    exact hmin q (hsub q hq)
  · intro x hx
    exact hInv.fro_le x hx a haq
  · intro v hv hfin hvF hvu
    obtain ⟨q, hq1, hq2, hq3⟩ := hInv.act v hv hfin hvF
    have hqa : q ≠ a := by
      intro hq
      rw [hq] at hq2
      exact hvu hq2.symm
    rcases List.mem_cons.mp (hperm.mem_iff.mp hq1) with hq4 | hq4
    · exact absurd hq4 hqa
    · exact ⟨q, hq4, hq2, hq3⟩

theorem pop_discard_inv (p : Planner) (speed : Int) (startNode : Nat)
    (F : Finset Nat) (st : DState) (a : PqNode) (rest : List PqNode)
    (hInv : Inv p speed startNode F st)
    (hpop : popMin st.queue = some (a, rest))
    (hcase : st.minTime a.id < a.timeCost ∨ a.id ∈ F) :
    Inv p speed startNode F { st with queue := rest } := by
  obtain ⟨hperm, hmin⟩ := popMin_spec st.queue a rest hpop
  have hsub : ∀ q ∈ rest, q ∈ st.queue :=
    fun q hq => hperm.mem_iff.mpr (List.mem_cons_of_mem a hq)
  refine ⟨?_, ?_, ?_, hInv.fro_lt, ?_, hInv.fro_rel, ?_, hInv.le_INF,
    hInv.nonneg, hInv.far, hInv.s0, hInv.sP, hInv.pinv⟩
  · intro q hq
    exact hInv.k_id q (hsub q hq)
  · intro q hq
    exact hInv.k_ge q (hsub q hq)
  · intro q hq
    exact hInv.k_fin q (hsub q hq)
  · intro x hx q hq
    exact hInv.fro_le x hx q (hsub q hq)
  · intro v hv hfin hvF
    obtain ⟨q, hq1, hq2, hq3⟩ := hInv.act v hv hfin hvF
    have hqa : q ≠ a := by
      intro hq
      subst hq
      rcases hcase with h1 | h1
      · rw [hq2] at h1
        rw [hq3] at h1
        exact lt_irrefl _ h1
      · rw [hq2] at h1
        exact hvF h1
    rcases List.mem_cons.mp (hperm.mem_iff.mp hq1) with hq4 | hq4
    · exact absurd hq4 hqa
    · exact ⟨q, hq4, hq2, hq3⟩

theorem dijkstraLoop_zero (p : Planner) (speed : Int) (st : DState) :
    dijkstraLoop p speed 0 st = st := rfl

theorem dijkstraLoop_succ (p : Planner) (speed : Int) (n : Nat) (st : DState) :
    dijkstraLoop p speed (n + 1) st =
      match popMin st.queue with
      | none => st
      | some (node, rest) =>
        if st.minTime node.id < node.timeCost then
          dijkstraLoop p speed n { st with queue := rest }
        else
          dijkstraLoop p speed n
            (relaxEdges speed node.id (p.adj node.id) { st with queue := rest }) := rfl

theorem dijkstraLoop_pnone (p : Planner) (speed : Int) (n : Nat) (st : DState)
    (hpop : popMin st.queue = none) :
    dijkstraLoop p speed (n + 1) st = st := by
  rw [dijkstraLoop_succ, hpop]

theorem dijkstraLoop_psome (p : Planner) (speed : Int) (n : Nat) (st : DState)
    (a : PqNode) (rest : List PqNode)
    (hpop : popMin st.queue = some (a, rest)) :
    dijkstraLoop p speed (n + 1) st =
      if st.minTime a.id < a.timeCost then
        dijkstraLoop p speed n { st with queue := rest }
      else
        dijkstraLoop p speed n
          (relaxEdges speed a.id (p.adj a.id) { st with queue := rest }) := by
  rw [dijkstraLoop_succ, hpop]

theorem measure_dequeue (p : Planner) (F : Finset Nat) (st : DState)
    (a : PqNode) (rest : List PqNode) (hperm : st.queue.Perm (a :: rest)) :
    measure p F { st with queue := rest } < measure p F st := by
  unfold measure
  have hlen : st.queue.length = rest.length + 1 := by
    rw [hperm.length_eq]
    rfl
  simp only
  omega

theorem measure_settle (p : Planner) (speed : Int) (F : Finset Nat)
    (st : DState) (a : PqNode) (rest : List PqNode)
    (hperm : st.queue.Perm (a :: rest))
    (hu : a.id < MAX_CITIES) (huF : a.id ∉ F) :
    measure p (insert a.id F)
        (relaxEdges speed a.id (p.adj a.id) { st with queue := rest }) <
      measure p F st := by
  unfold measure
  have hlen : st.queue.length = rest.length + 1 := by
    rw [hperm.length_eq]
    rfl
  have hql : (relaxEdges speed a.id (p.adj a.id) { st with queue := rest }).queue.length ≤
      rest.length + (p.adj a.id).length :=
    relaxEdges_queue_len speed a.id (p.adj a.id) { st with queue := rest }
  have hmem : a.id ∈ Finset.range MAX_CITIES \ F := by
    rw [Finset.mem_sdiff, Finset.mem_range]
    exact ⟨hu, huF⟩
  have hset : Finset.range MAX_CITIES \ insert a.id F =
      (Finset.range MAX_CITIES \ F).erase a.id := by
    ext x
    simp only [Finset.mem_sdiff, Finset.mem_insert, Finset.mem_erase, Finset.mem_range]
    constructor
    · rintro ⟨h1, h2⟩
      exact ⟨fun hq => h2 (Or.inl hq), h1, fun hq => h2 (Or.inr hq)⟩
    · rintro ⟨h1, h2, h3⟩
      exact ⟨h2, fun hq => hq.elim h1 h3⟩
  have hsum : (p.adj a.id).length +
      Finset.sum ((Finset.range MAX_CITIES \ F).erase a.id) (fun u => (p.adj u).length) =
      Finset.sum (Finset.range MAX_CITIES \ F) (fun u => (p.adj u).length) :=
    Finset.add_sum_erase (Finset.range MAX_CITIES \ F) (fun u => (p.adj u).length) hmem
  rw [hset]
  omega

theorem initState_inv (p : Planner) (speed : Int) (startNode : Nat)
    (hst : startNode < MAX_CITIES) :
    Inv p speed startNode ∅ (initState startNode) := by
  have hINF : (0 : ℚ) < INF := by norm_num [INF]
  refine ⟨?_, ?_, ?_, ?_, ?_, ?_, ?_, ?_, ?_, ?_, ?_, ?_, ?_⟩
  · intro q hq
    simp only [initState, List.mem_singleton] at hq
    subst hq
    exact hst
  · intro q hq
    simp only [initState, List.mem_singleton] at hq
    subst hq
    simp only [initState, Function.update_same]
    exact le_refl _
  · intro q hq
    simp only [initState, List.mem_singleton] at hq
    subst hq
    exact hINF
  · intro x hx
    exact absurd hx (Finset.not_mem_empty x)
  · intro x hx
    exact absurd hx (Finset.not_mem_empty x)
  · intro x hx
    exact absurd hx (Finset.not_mem_empty x)
  · intro v hv hfin _
    by_cases hz : v = startNode
    · refine ⟨⟨startNode, 0⟩, List.mem_singleton_self _, hz.symm, ?_⟩
      simp only [initState]
      rw [hz, Function.update_same]
    · exfalso
      simp only [initState, Function.update_noteq hz] at hfin
      exact lt_irrefl _ hfin
  · intro v
    by_cases hz : v = startNode
    · subst hz
      simp only [initState, Function.update_same]
      exact le_of_lt hINF
    · simp only [initState, Function.update_noteq hz]
      exact le_refl _
  · intro v
    by_cases hz : v = startNode
    · subst hz
      simp only [initState, Function.update_same]
      exact le_refl _
    · simp only [initState, Function.update_noteq hz]
      exact le_of_lt hINF
  · intro v hfar
    have hz : v ≠ startNode := by omega
    simp only [initState, Function.update_noteq hz]
  · simp only [initState, Function.update_same]
  · exact ⟨rfl, rfl, rfl⟩
  · intro v hvs hfin
    exfalso
    simp only [initState, Function.update_noteq hvs] at hfin
    exact lt_irrefl _ hfin

theorem measure_init (p : Planner) (startNode : Nat) :
    measure p ∅ (initState startNode) ≤ totalDeg p + 2 := by
  unfold measure totalDeg initState
  rw [Finset.sdiff_empty]
  simp only [List.length_singleton]
  omega

theorem dijkstraLoop_inv (p : Planner) (speed : Int) (startNode : Nat)
    (hg : ValidGraph p) (hsp : 0 < speed) :
    ∀ (fuel : Nat) (F : Finset Nat) (st : DState),
      Inv p speed startNode F st → measure p F st ≤ fuel →
      ∃ F2, Inv p speed startNode F2 (dijkstraLoop p speed fuel st) ∧
        (dijkstraLoop p speed fuel st).queue = [] := by
  intro fuel
  induction fuel with
  | zero =>
    intro F st hInv hM
    have hq : st.queue = [] := by
      unfold measure at hM
      have : st.queue.length = 0 := by omega
      exact List.length_eq_zero.mp this
    exact ⟨F, by rw [dijkstraLoop_zero]; exact hInv, by rw [dijkstraLoop_zero]; exact hq⟩
  | succ n ih =>
    intro F st hInv hM
    cases hpop : popMin st.queue with
    | none =>
      have hq : st.queue = [] := (popMin_none_iff _).mp hpop
      rw [dijkstraLoop_pnone p speed n st hpop]
      exact ⟨F, hInv, hq⟩
    | some ar =>
      obtain ⟨a, rest⟩ := ar
      obtain ⟨hperm, hmin⟩ := popMin_spec st.queue a rest hpop
      rw [dijkstraLoop_psome p speed n st a rest hpop]
      by_cases hstale : st.minTime a.id < a.timeCost
      · rw [if_pos hstale]
        have hInv2 := pop_discard_inv p speed startNode F st a rest hInv hpop (Or.inl hstale)
        have hM2 : measure p F { st with queue := rest } ≤ n := by
          have := measure_dequeue p F st a rest hperm
          omega
        exact ih F _ hInv2 hM2
      · rw [if_neg hstale]
        by_cases hF : a.id ∈ F
        · have hInv2 := pop_discard_inv p speed startNode F st a rest hInv hpop (Or.inr hF)
          have hnoop : relaxEdges speed a.id (p.adj a.id) { st with queue := rest } =
              { st with queue := rest } := by
            refine relaxEdges_noop speed a.id (p.adj a.id) _ ?_
            intro e he
            exact not_lt.mpr (hInv.fro_rel a.id hF e he)
          rw [hnoop]
          have hM2 : measure p F { st with queue := rest } ≤ n := by
            have := measure_dequeue p F st a rest hperm
            omega
          exact ih F _ hInv2 hM2
        · obtain ⟨hmid, ht⟩ :=
            pop_nonstale_mid p speed startNode F st a rest hInv hpop hstale hF
          have haq : a ∈ st.queue := hperm.mem_iff.mpr (List.mem_cons_self a rest)
          have ha_lt : a.id < MAX_CITIES := hInv.k_id a haq
          have hInv2 := step_settle p speed startNode F a.id a.timeCost
            { st with queue := rest } hg hsp ha_lt hmid
          have hM2 : measure p (insert a.id F)
              (relaxEdges speed a.id (p.adj a.id) { st with queue := rest }) ≤ n := by
            have := measure_settle p speed F st a rest hperm ha_lt hF
            omega
          exact ih (insert a.id F) _ hInv2 hM2

theorem pathTime_nil (speed : Int) : pathTime speed [] = 0 := rfl

theorem pathTime_cons (speed : Int) (e : Edge) (es : List Edge) :
    pathTime speed (e :: es) = edgeTime speed e + pathTime speed es := by
  simp [pathTime]

theorem pathTime_append_single (speed : Int) (es : List Edge) (e : Edge) :
    pathTime speed (es ++ [e]) = pathTime speed es + edgeTime speed e := by
  simp [pathTime]

theorem pathDistSum_append_single (es : List Edge) (e : Edge) :
    pathDistSum (es ++ [e]) = pathDistSum es + e.distanceKM := by
  simp [pathDistSum]

theorem pathFuelSum_append_single (speed : Int) (es : List Edge) (e : Edge) :
    pathFuelSum speed (es ++ [e]) = pathFuelSum speed es + fuelSeg speed e := by
  simp [pathFuelSum]

theorem pathVertices_append_single (u : Nat) (es : List Edge) (e : Edge) :
    pathVertices u (es ++ [e]) = pathVertices u es ++ [e.destination] := by
  simp [pathVertices]

theorem IsPath_append_single (p : Planner) {u v : Nat} {es : List Edge}
    (h : IsPath p u v es) (e : Edge) (he : e ∈ p.adj v) :
    IsPath p u e.destination (es ++ [e]) := by
  induction h with
  | nil w => exact IsPath.cons e he (IsPath.nil e.destination)
  | cons e2 he2 h2 ih => exact IsPath.cons e2 he2 (ih he)

theorem backtrack_succ (parent : Nat → Int) (f : Nat) (v : Nat) :
    backtrack parent (f + 1) v =
      v :: (if parent v = -1 then [] else backtrack parent f (parent v).toNat) := rfl

theorem final_all_frozen (p : Planner) (speed : Int) (startNode : Nat)
    (F : Finset Nat) (st : DState) (hInv : Inv p speed startNode F st)
    (hq : st.queue = []) :
    ∀ v, v < MAX_CITIES → st.minTime v < INF → v ∈ F := by
  intro v hv hfin
  by_contra hvF
  obtain ⟨q, hq1, _, _⟩ := hInv.act v hv hfin hvF
  rw [hq] at hq1
  exact absurd hq1 (List.not_mem_nil q)

theorem final_lower (p : Planner) (speed : Int) (startNode : Nat)
    (F : Finset Nat) (st : DState) (hg : ValidGraph p) (hsp : 0 < speed)
    (hInv : Inv p speed startNode F st) (hq : st.queue = []) :
    ∀ (es : List Edge) (u v : Nat), IsPath p u v es → u < MAX_CITIES →
      0 ≤ pathTime speed es ∧
      (st.minTime u + pathTime speed es < INF →
        st.minTime v ≤ st.minTime u + pathTime speed es) := by
  intro es u v h
  induction h with
  | nil w =>
    intro _
    rw [pathTime_nil]
    exact ⟨le_refl 0, fun _ => by simp⟩
  | cons e he h2 ih =>
    rename_i u2 v2 es2
    intro hu
    obtain ⟨hd, hdpos⟩ := hg u2 hu e he
    have hw : 0 < edgeTime speed e := edgeTime_pos e hsp hdpos
    obtain ⟨ihnn, ihb⟩ := ih hd
    rw [pathTime_cons]
    constructor
    · linarith
    · intro hfin
      have hufin : st.minTime u2 < INF := by
        have h0 := hInv.nonneg u2
        linarith
      have huF : u2 ∈ F :=
        final_all_frozen p speed startNode F st hInv hq u2 hu hufin
      have hrel := hInv.fro_rel u2 huF e he
      have hdfin : st.minTime e.destination + pathTime speed es2 < INF := by
        linarith
      have := ihb hdfin
      linarith

theorem rank_lt (st : DState) {u v : Nat} (hu : u < MAX_CITIES)
    (huv : st.minTime u < st.minTime v) : rank st u < rank st v := by
  unfold rank
  apply Finset.card_lt_card
  constructor
  · intro x hx
    rw [Finset.mem_filter] at hx ⊢
    exact ⟨hx.1, lt_trans hx.2 huv⟩
  · intro hsub
    have hmem : u ∈ (Finset.range MAX_CITIES).filter
        (fun x => st.minTime x < st.minTime v) := by
      rw [Finset.mem_filter, Finset.mem_range]
      exact ⟨hu, huv⟩
    have := hsub hmem
    rw [Finset.mem_filter] at this
    exact lt_irrefl _ this.2

theorem rank_le_card (st : DState) (v : Nat) : rank st v ≤ MAX_CITIES := by
  unfold rank
  calc ((Finset.range MAX_CITIES).filter (fun x => st.minTime x < st.minTime v)).card
      ≤ (Finset.range MAX_CITIES).card := Finset.card_filter_le _ _
    _ = MAX_CITIES := Finset.card_range _

theorem final_chain (p : Planner) (speed : Int) (startNode : Nat)
    (F : Finset Nat) (st : DState) (hg : ValidGraph p) (hsp : 0 < speed)
    (hInv : Inv p speed startNode F st) (hq : st.queue = []) :
    ∀ (n v : Nat), rank st v ≤ n → st.minTime v < INF →
      ∃ es, IsPath p startNode v es ∧ pathTime speed es = st.minTime v ∧
        pathDistSum es = st.pathDist v ∧
        pathFuelSum speed es = st.fuelConsumed v ∧
        es.length ≤ n ∧
        ∀ f, es.length < f →
          backtrack st.parent f v = (pathVertices startNode es).reverse := by
  intro n
  induction n with
  | zero =>
    intro v hrank hfin
    by_cases hvs : v = startNode
    · subst hvs
      refine ⟨[], IsPath.nil v, ?_, ?_, ?_, le_refl 0, ?_⟩
      · rw [pathTime_nil, hInv.s0]
      · rw [hInv.sP.2.1]
        rfl
      · rw [hInv.sP.2.2]
        rfl
      · intro f hf
        cases f with
        | zero => omega
        | succ f2 =>
          rw [backtrack_succ, hInv.sP.1, if_pos rfl]
          rfl
    · exfalso
      obtain ⟨u, hu, e, he, hpar, hdest, hle, hsnap⟩ := hInv.pinv v hvs hfin
      have hw : 0 < edgeTime speed e := edgeTime_pos e hsp (hg u hu e he).2
      have hlt : st.minTime u < st.minTime v := by linarith
      have := rank_lt st hu hlt
      omega
  | succ n ih =>
    intro v hrank hfin
    by_cases hvs : v = startNode
    · subst hvs
      refine ⟨[], IsPath.nil v, ?_, ?_, ?_, by simp, ?_⟩
      · rw [pathTime_nil, hInv.s0]
      · rw [hInv.sP.2.1]
        rfl
      · rw [hInv.sP.2.2]
        rfl
      · intro f hf
        cases f with
        | zero => omega
        | succ f2 =>
          rw [backtrack_succ, hInv.sP.1, if_pos rfl]
          rfl
    · obtain ⟨u, hu, e, he, hpar, hdest, hle, hsnap⟩ := hInv.pinv v hvs hfin
      have hw : 0 < edgeTime speed e := edgeTime_pos e hsp (hg u hu e he).2
      have hufin : st.minTime u < INF := by linarith
      have huF : u ∈ F :=
        final_all_frozen p speed startNode F st hInv hq u hu hufin
      have hrel := hInv.fro_rel u huF e he
      rw [hdest] at hrel
      have heq : st.minTime v = st.minTime u + edgeTime speed e :=
        le_antisymm hrel hle
      have hsnap2 : st.minTime v = st.minTime u + edgeTime speed e ∧
          st.pathDist v = st.pathDist u + e.distanceKM ∧
          st.fuelConsumed v = st.fuelConsumed u + fuelSeg speed e := by
        rcases hsnap with h | h
        · exact h
        · exfalso
          linarith
      have hlt : st.minTime u < st.minTime v := by linarith
      have hrank2 : rank st u ≤ n := by
        have := rank_lt st hu hlt
        omega
      obtain ⟨es2, hp2, ht2, hd2, hf2, hl2, hb2⟩ := ih u hrank2 hufin
      refine ⟨es2 ++ [e], ?_, ?_, ?_, ?_, ?_, ?_⟩
      · exact hdest ▸ IsPath_append_single p hp2 e he
      · rw [pathTime_append_single, ht2, heq]
      · rw [pathDistSum_append_single, hd2, hsnap2.2.1]
      · rw [pathFuelSum_append_single, hf2, hsnap2.2.2]
      · rw [List.length_append, List.length_singleton]
        omega
      · intro f hf
        rw [List.length_append, List.length_singleton] at hf
        cases f with
        | zero => omega
        | succ f2 =>
          rw [backtrack_succ, hpar]
          have hne : (u : Int) ≠ -1 := by omega
          rw [if_neg hne]
          have htn : ((u : Int)).toNat = u := Int.toNat_natCast u
          rw [htn]
          have hb3 := hb2 f2 (by omega)
          rw [hb3, pathVertices_append_single, hdest]
          rw [List.reverse_append]
          rfl

theorem findRoute_master (p : Planner) (speed : Int) (s e : Nat)
    (hg : ValidGraph p) (hsp : 0 < speed) (hcc : p.cityCount < MAX_CITIES)
    (hs1 : 1 ≤ s) (hs2 : s ≤ p.cityCount) (he1 : 1 ≤ e) (he2 : e ≤ p.cityCount) :
    ((¬ ∃ es, IsPath p s e es ∧ pathTime speed es < INF) →
      findRoute p s e speed = RouteOutcome.unreachable) ∧
    (∀ r, findRoute p s e speed = RouteOutcome.ok r →
      r.totalTime < INF ∧
      ∃ es, IsPath p s e es ∧
        r.totalTime = pathTime speed es ∧
        r.totalDist = pathDistSum es ∧
        r.totalFuel = pathFuelSum speed es ∧
        (∀ es2, IsPath p s e es2 → r.totalTime ≤ pathTime speed es2) ∧
        r.legs = mkLegs p (pathVertices s es)) ∧
    ((∃ es, IsPath p s e es ∧ pathTime speed es < INF) →
      ∃ r, findRoute p s e speed = RouteOutcome.ok r) := by
  have hvalid : ¬ (s < 1 ∨ p.cityCount < s ∨ e < 1 ∨ p.cityCount < e) := by omega
  have hsM : s < MAX_CITIES := by omega
  have heM : e < MAX_CITIES := by omega
  obtain ⟨F2, hInvf, hqf⟩ :=
    dijkstraLoop_inv p speed s hg hsp (totalDeg p + 2) ∅ (initState s)
      (initState_inv p speed s hsM) (measure_init p s)
  have hfr : findRoute p s e speed =
      routeOutcomeOf p e (dijkstraLoop p speed (totalDeg p + 2) (initState s)) := by
    unfold findRoute
    rw [if_neg hvalid]
  have hA : ∀ es2, IsPath p s e es2 → pathTime speed es2 < INF →
      (dijkstraLoop p speed (totalDeg p + 2) (initState s)).minTime e ≤
        pathTime speed es2 := by
    intro es2 hpath hfin
    have h1 := (final_lower p speed s F2 _ hg hsp hInvf hqf es2 s e hpath hsM).2
    rw [hInvf.s0, zero_add] at h1
    exact h1 hfin
  have hB : (dijkstraLoop p speed (totalDeg p + 2) (initState s)).minTime e < INF →
      ∃ es, IsPath p s e es ∧
        pathTime speed es =
          (dijkstraLoop p speed (totalDeg p + 2) (initState s)).minTime e ∧
        pathDistSum es =
          (dijkstraLoop p speed (totalDeg p + 2) (initState s)).pathDist e ∧
        pathFuelSum speed es =
          (dijkstraLoop p speed (totalDeg p + 2) (initState s)).fuelConsumed e ∧
        backtrack (dijkstraLoop p speed (totalDeg p + 2) (initState s)).parent
            (MAX_CITIES + 1) e = (pathVertices s es).reverse := by
    intro hfin
    obtain ⟨es, h1, h2, h3, h4, h5, h6⟩ :=
      final_chain p speed s F2 _ hg hsp hInvf hqf MAX_CITIES e
        (rank_le_card _ e) hfin
    exact ⟨es, h1, h2, h3, h4, h6 (MAX_CITIES + 1) (by omega)⟩
  refine ⟨?_, ?_, ?_⟩
  · intro hno
    rw [hfr]
    unfold routeOutcomeOf
    rw [if_pos ?_]
    by_contra hne
    have hfin : (dijkstraLoop p speed (totalDeg p + 2) (initState s)).minTime e < INF :=
      lt_of_le_of_ne (hInvf.le_INF e) hne
    obtain ⟨es, h1, h2, _, _, _⟩ := hB hfin
    exact hno ⟨es, h1, h2 ▸ hfin⟩
  · intro r hr
    rw [hfr] at hr
    unfold routeOutcomeOf at hr
    by_cases hINF : (dijkstraLoop p speed (totalDeg p + 2) (initState s)).minTime e = INF
    · rw [if_pos hINF] at hr
      exact absurd hr (by simp)
    · rw [if_neg hINF] at hr
      have hfin : (dijkstraLoop p speed (totalDeg p + 2) (initState s)).minTime e < INF :=
        lt_of_le_of_ne (hInvf.le_INF e) hINF
      obtain ⟨es, h1, h2, h3, h4, h5⟩ := hB hfin
      have hrr := (RouteOutcome.ok.injEq _ _).mp hr.symm
      subst hrr
      refine ⟨hfin, es, h1, h2.symm, h3.symm, h4.symm, ?_, ?_⟩
      · intro es2 hpath2
        by_cases hfin2 : pathTime speed es2 < INF
        · exact hA es2 hpath2 hfin2
        · exact le_trans (le_of_lt hfin) (le_of_not_lt hfin2)
      · unfold printDetailedReceipt
        rw [h5]
        show mkLegs p (pathVertices s es).reverse.reverse = mkLegs p (pathVertices s es)
        rw [List.reverse_reverse]
  · rintro ⟨es0, hp0, hfin0⟩
    have hle := hA es0 hp0 hfin0
    have hfin : (dijkstraLoop p speed (totalDeg p + 2) (initState s)).minTime e < INF :=
      lt_of_le_of_lt hle hfin0
    rw [hfr]
    unfold routeOutcomeOf
    rw [if_neg (ne_of_lt hfin)]
    exact ⟨_, rfl⟩

/-- C3: calculateFuelEfficiency equals base 16 minus 4 on Local roads; above
90 km/h it drops quadratically by (speed-90)^2/400 but is clamped to at least
5.0 for arbitrarily large speed; below 40 km/h it drops by a flat 3.0 with no
clamp in that branch, reaching exactly 13.0 on non-local and 9.0 on local
roads; between 40 and 90 inclusive it is the unchanged base. -/
theorem C3_fuel_efficiency_characterization (speed ty : Int) :
    (90 < speed →
      calculateFuelEfficiency speed ty =
        max 5 ((16 - (if ty = LOCAL then 4 else 0)) -
          ((speed : ℚ) - 90) * ((speed : ℚ) - 90) / 400) ∧
      5 ≤ calculateFuelEfficiency speed ty) ∧
    (speed < 40 →
      calculateFuelEfficiency speed ty =
        (16 - (if ty = LOCAL then 4 else 0)) - 3 ∧
      (ty = LOCAL → calculateFuelEfficiency speed ty = 9) ∧
      (ty ≠ LOCAL → calculateFuelEfficiency speed ty = 13)) ∧
    (40 ≤ speed → speed ≤ 90 →
      calculateFuelEfficiency speed ty = 16 - (if ty = LOCAL then 4 else 0)) := by
  refine ⟨?_, ?_, ?_⟩
  · intro h
    unfold calculateFuelEfficiency
    rw [if_pos h]
    constructor
    · by_cases hL : ty = LOCAL <;> simp [hL]
    · exact le_max_left 5 _
  · intro h
    have h2 : ¬ 90 < speed := by omega
    unfold calculateFuelEfficiency
    rw [if_neg h2, if_pos h]
    refine ⟨by by_cases hL : ty = LOCAL <;> simp [hL], ?_, ?_⟩
    · intro hL
      rw [if_pos hL]
      norm_num
    · intro hL
      rw [if_neg hL]
      norm_num
  · intro h1 h2
    have h3 : ¬ 90 < speed := by omega
    have h4 : ¬ speed < 40 := by omega
    unfold calculateFuelEfficiency
    rw [if_neg h3, if_neg h4]
    by_cases hL : ty = LOCAL <;> simp [hL]

/-- C3 witness: at 200 km/h on a local road the quadratic drop would take the
efficiency far below 5, and the clamp keeps it at exactly 5. -/
theorem C3_fuel_efficiency_witness :
    (90 : Int) < 200 ∧ 5 ≤ calculateFuelEfficiency 200 LOCAL :=
  ⟨by norm_num, ((C3_fuel_efficiency_characterization 200 LOCAL).1 (by norm_num)).2⟩

/-- C4: the travel time of one segment is (distance / speed) * 60 scaled by
the traffic multiplier, which maps LOW (Clear) to 1, MODERATE to 1.2, HIGH
(Heavy) to 1.5, JAMMED to 2.5 and any unknown level to 1; in particular a
segment at JAMMED takes exactly 2.5 times as long as the same segment at
LOW. -/
theorem C4_segment_time_spec (d : ℚ) (speed level : Int) (hsp : 0 < speed) :
    segmentTravelTime d speed level =
      ((d / (speed : ℚ)) * 60) * getTrafficMultiplier level ∧
    getTrafficMultiplier LOW = 1 ∧
    getTrafficMultiplier MODERATE = 6 / 5 ∧
    getTrafficMultiplier HIGH = 3 / 2 ∧
    getTrafficMultiplier JAMMED = 5 / 2 ∧
    (level ≠ LOW → level ≠ MODERATE → level ≠ HIGH → level ≠ JAMMED →
      getTrafficMultiplier level = 1) ∧
    segmentTravelTime d speed JAMMED = (5 / 2) * segmentTravelTime d speed LOW := by
  refine ⟨rfl, by norm_num [getTrafficMultiplier, LOW, MODERATE, HIGH, JAMMED],
    by norm_num [getTrafficMultiplier, LOW, MODERATE, HIGH, JAMMED],
    by norm_num [getTrafficMultiplier, LOW, MODERATE, HIGH, JAMMED],
    by norm_num [getTrafficMultiplier, LOW, MODERATE, HIGH, JAMMED], ?_, ?_⟩
  · intro h1 h2 h3 h4
    unfold getTrafficMultiplier
    rw [if_neg h1, if_neg h2, if_neg h3, if_neg h4]
  · unfold segmentTravelTime
    norm_num [getTrafficMultiplier, LOW, MODERATE, HIGH, JAMMED]
    ring

/-- C4 witness: a 100 km segment at 60 km/h, jammed, takes 250 minutes,
2.5 times the 100 clear minutes. -/
theorem C4_segment_time_witness :
    (0 : Int) < 60 ∧
    segmentTravelTime 100 60 JAMMED = (5 / 2) * segmentTravelTime 100 60 LOW :=
  ⟨by norm_num, (C4_segment_time_spec 100 60 LOW (by norm_num)).2.2.2.2.2.2⟩

/-- C2: findRoute performs no speed validation at all — with any non-positive
speed (and valid city ids) it still enters the search and its outcome is
never the invalid-city rejection; the outcome type of the source has no
InvalidSpeed case to return. -/
theorem C2_no_invalid_speed_rejection (p : Planner) (s e : Nat) (speed : Int)
    (hok : ¬ (s < 1 ∨ p.cityCount < s ∨ e < 1 ∨ p.cityCount < e))
    (hsp : speed ≤ 0) :
    findRoute p s e speed ≠ RouteOutcome.invalidCity := by
  unfold findRoute
  rw [if_neg hok]
  unfold routeOutcomeOf
  split <;> simp

/-- C2 witness: on the concrete two-city map, the query with speed 0 passes
the only validation present (the city range check). -/
theorem C2_no_invalid_speed_witness :
    ¬ (1 < 1 ∨ pW.cityCount < 1 ∨ 2 < 1 ∨ pW.cityCount < 2) ∧ (0 : Int) ≤ 0 ∧
    findRoute pW 1 2 0 ≠ RouteOutcome.invalidCity :=
  ⟨by decide, le_refl 0, C2_no_invalid_speed_rejection pW 1 2 0 (by decide) (le_refl 0)⟩

/-- C6 (amended): the invalid-city outcome of findRoute is exactly a range
check against 1..cityCount — an id outside that range (such as 99 on a map
whose highest id is smaller) is rejected, while an unregistered id inside
the range is accepted. -/
theorem C6_invalid_city_iff_range (p : Planner) (s e : Nat) (speed : Int) :
    findRoute p s e speed = RouteOutcome.invalidCity ↔
      (s < 1 ∨ p.cityCount < s ∨ e < 1 ∨ p.cityCount < e) := by
  by_cases h : s < 1 ∨ p.cityCount < s ∨ e < 1 ∨ p.cityCount < e
  · unfold findRoute
    rw [if_pos h]
    exact iff_of_true rfl h
  · unfold findRoute
    rw [if_neg h]
    refine iff_of_false ?_ h
    unfold routeOutcomeOf
    split <;> simp

/-- C6 counterexample: on the map registering only ids 1 and 5, the query
with the unregistered start id 3 is not rejected as an invalid city — it
falls through to the unreachable outcome. -/
theorem C6_counterexample :
    findRoute pC6 3 1 60 = RouteOutcome.unreachable ∧
    findRoute pC6 3 1 60 ≠ RouteOutcome.invalidCity := by
  constructor
  · decide
  · decide

/-- C10: addCity records only the highest registered id, so the validation of
findRoute is a range check and not a registration check — registering only
ids 1 and 5 gives cityCount 5; the unregistered id 3 is then accepted as a
start city and the query ends in the unreachable outcome, while id 99 above
the recorded maximum is rejected as an invalid city. -/
theorem C10_range_check_not_registration :
    pC10.cityCount = 5 ∧
    findRoute pC10 3 1 60 = RouteOutcome.unreachable ∧
    findRoute pC10 99 1 60 = RouteOutcome.invalidCity := by
  refine ⟨by decide, by decide, by decide⟩

theorem pW_valid : ValidGraph pW := by
  unfold ValidGraph
  decide

theorem pW_edge_mem : wEdge ∈ pW.adj 1 := by decide

theorem pW_path : IsPath pW 1 2 [wEdge] :=
  IsPath.cons wEdge pW_edge_mem (IsPath.nil 2)

theorem pW_direct_time : pathTime 60 [wEdge] = 100 := by
  norm_num [pathTime, edgeTime, segmentTravelTime, getTrafficMultiplier, wEdge, LOW]

theorem pW_time_lt : pathTime 60 [wEdge] < INF := by
  rw [pW_direct_time]
  norm_num [INF]

/-- C1 (amended with the sentinel caveat): for every graph, every pair of
registered cities and every speed > 0, if a path whose total travel time is
below the finite INF sentinel (1e9 minutes) exists, findRoute reports a total
travel time equal to the minimum of the per-segment travel-time sums over all
start-to-end paths, and the reported legs trace an actual start-to-end path
whose summed segment distances and segment fuels equal the reported total
distance and total fuel. -/
theorem C1_shortest_route_correct (p : Planner) (speed : Int) (s e : Nat)
    (hg : ValidGraph p) (hsp : 0 < speed) (hcc : p.cityCount < MAX_CITIES)
    (hs1 : 1 ≤ s) (hs2 : s ≤ p.cityCount) (he1 : 1 ≤ e) (he2 : e ≤ p.cityCount)
    (hpath : ∃ es0, IsPath p s e es0 ∧ pathTime speed es0 < INF) :
    ∃ r es, findRoute p s e speed = RouteOutcome.ok r ∧
      IsPath p s e es ∧
      r.totalTime = pathTime speed es ∧
      (∀ es2, IsPath p s e es2 → r.totalTime ≤ pathTime speed es2) ∧
      r.totalDist = pathDistSum es ∧
      r.totalFuel = pathFuelSum speed es ∧
      r.legs = mkLegs p (pathVertices s es) := by
  obtain ⟨m1, m2, m3⟩ :=
    findRoute_master p speed s e hg hsp hcc hs1 hs2 he1 he2
  obtain ⟨r, hr⟩ := m3 hpath
  obtain ⟨_, es, h1, h2, h3, h4, h5, h6⟩ := m2 r hr
  exact ⟨r, es, hr, h1, h2, h5, h3, h4, h6⟩

/-- C1 witness: the two-city map with its single 100 km clear road, queried
at 60 km/h. -/
theorem C1_shortest_route_witness :
    (∃ es0, IsPath pW 1 2 es0 ∧ pathTime 60 es0 < INF) ∧
    ∃ r es, findRoute pW 1 2 60 = RouteOutcome.ok r ∧
      IsPath pW 1 2 es ∧
      r.totalTime = pathTime 60 es ∧
      (∀ es2, IsPath pW 1 2 es2 → r.totalTime ≤ pathTime 60 es2) ∧
      r.totalDist = pathDistSum es ∧
      r.totalFuel = pathFuelSum 60 es ∧
      r.legs = mkLegs pW (pathVertices 1 es) :=
  ⟨⟨[wEdge], pW_path, pW_time_lt⟩,
    C1_shortest_route_correct pW 60 1 2 pW_valid (by norm_num) (by decide)
      (by decide) (by decide) (by decide) (by decide)
      ⟨[wEdge], pW_path, pW_time_lt⟩⟩

/-- C1 counterexample: on a map whose only road is 20 000 000 km long, a path
from 1 to 2 exists, but at speed 1 its 1.2e9-minute travel time reaches the
finite INF sentinel, so findRoute reports no connection instead of the
minimal total time (all doubles involved are exact, so the source behaves
identically). -/
theorem C1_counterexample :
    (∃ es, IsPath pC1x 1 2 es) ∧
    findRoute pC1x 1 2 1 = RouteOutcome.unreachable := by
  constructor
  · refine ⟨[⟨2, 20000000, LOW, MOTORWAY, "long"⟩],
      IsPath.cons ⟨2, 20000000, LOW, MOTORWAY, "long"⟩ (by decide) (IsPath.nil 2)⟩
  · norm_num [findRoute, routeOutcomeOf, totalDeg, dijkstraLoop, initState, popMin,
      relaxEdges, relax1, edgeTime, segmentTravelTime, getTrafficMultiplier, fuelSeg,
      calculateFuelEfficiency, printDetailedReceipt, backtrack, mkLegs, mkLeg,
      getTrafficString, buildPlanner, addCity, addRoad, emptyPlanner, Function.update,
      MAX_CITIES, INF, LOW, MODERATE, HIGH, JAMMED, MOTORWAY, HIGHWAY, LOCAL, pC1x,
      Finset.sum_range_succ, Finset.sum_range_zero]

theorem pW5_no_path : ¬ ∃ es, IsPath pW5 1 2 es := by
  rintro ⟨es, h⟩
  cases h with
  | cons e he h2 =>
    have hadj : pW5.adj 1 = [] := by decide
    rw [hadj] at he
    exact absurd he (List.not_mem_nil e)

/-- C5: for every graph and every registered pair with no connecting path,
findRoute fails with the explicit no-connection outcome; and whenever it does
report a route, the reported total time is strictly below the INF sentinel,
so no infinity-like value ever reaches the caller. -/
theorem C5_unreachable_error (p : Planner) (speed : Int) (s e : Nat)
    (hg : ValidGraph p) (hsp : 0 < speed) (hcc : p.cityCount < MAX_CITIES)
    (hs1 : 1 ≤ s) (hs2 : s ≤ p.cityCount) (he1 : 1 ≤ e) (he2 : e ≤ p.cityCount) :
    ((¬ ∃ es, IsPath p s e es) → findRoute p s e speed = RouteOutcome.unreachable) ∧
    (∀ r, findRoute p s e speed = RouteOutcome.ok r → r.totalTime < INF) := by
  obtain ⟨m1, m2, _⟩ :=
    findRoute_master p speed s e hg hsp hcc hs1 hs2 he1 he2
  constructor
  · intro hno
    refine m1 ?_
    rintro ⟨es, h1, _⟩
    exact hno ⟨es, h1⟩
  · intro r hr
    exact (m2 r hr).1

/-- C5 witness: two registered cities with no roads at all. -/
theorem C5_unreachable_witness :
    (¬ ∃ es, IsPath pW5 1 2 es) ∧
    findRoute pW5 1 2 60 = RouteOutcome.unreachable :=
  ⟨pW5_no_path,
    (C5_unreachable_error pW5 60 1 2 (by unfold ValidGraph; decide) (by norm_num)
      (by decide) (by decide) (by decide) (by decide) (by decide)).1 pW5_no_path⟩

theorem addCity_adj (p : Planner) (id : Nat) (name : String) :
    (addCity p id name).adj = p.adj := by
  unfold addCity
  split <;> rfl

theorem citiesFold_adj :
    ∀ (cities : List CitySpec) (q : Planner),
      (cities.foldl (fun q c => addCity q c.cid c.cname) q).adj = q.adj := by
  intro cities
  induction cities with
  | nil => intro q; rfl
  | cons c rest ih =>
    intro q
    rw [List.foldl_cons, ih, addCity_adj]

theorem addRoad_adj_mem (p : Planner) (u v : Nat) (dist : ℚ) (traf ty : Int)
    (name : String) (x : Nat) (e2 : Edge) :
    e2 ∈ (addRoad p u v dist traf ty name).adj x ↔
      (e2 ∈ p.adj x ∨ (x = u ∧ e2 = ⟨v, dist, traf, ty, name⟩) ∨
       (x = v ∧ e2 = ⟨u, dist, traf, ty, name⟩)) := by
  show e2 ∈ Function.update
      (Function.update p.adj u (p.adj u ++ [⟨v, dist, traf, ty, name⟩])) v
      ((Function.update p.adj u (p.adj u ++ [⟨v, dist, traf, ty, name⟩])) v ++
        [⟨u, dist, traf, ty, name⟩]) x ↔ _
  rw [Function.update_apply, Function.update_apply, Function.update_apply]
  by_cases hxv : x = v
  · rw [if_pos hxv]
    by_cases hvu : v = u
    · rw [if_pos hvu]
      subst hxv
      subst hvu
      simp only [List.mem_append, List.mem_singleton]
      constructor
      · rintro ((h | h) | h)
        · exact Or.inl h
        · exact Or.inr (Or.inl ⟨by trivial, h⟩)
        · exact Or.inr (Or.inr ⟨by trivial, h⟩)
      · rintro (h | ⟨_, h⟩ | ⟨_, h⟩)
        · exact Or.inl (Or.inl h)
        · exact Or.inl (Or.inr h)
        · exact Or.inr h
    · rw [if_neg hvu]
      subst hxv
      simp only [List.mem_append, List.mem_singleton]
      constructor
      · rintro (h | h)
        · exact Or.inl h
        · exact Or.inr (Or.inr ⟨by trivial, h⟩)
      · rintro (h | ⟨hq, _⟩ | ⟨_, h⟩)
        · exact Or.inl h
        · exact absurd hq hvu
        · exact Or.inr h
  · rw [if_neg hxv]
    by_cases hxu : x = u
    · rw [if_pos hxu]
      subst hxu
      simp only [List.mem_append, List.mem_singleton]
      constructor
      · rintro (h | h)
        · exact Or.inl h
        · exact Or.inr (Or.inl ⟨by trivial, h⟩)
      · rintro (h | ⟨_, h⟩ | ⟨hq, _⟩)
        · exact Or.inl h
        · exact Or.inr h
        · exact absurd hq hxv
    · rw [if_neg hxu]
      constructor
      · intro h
        exact Or.inl h
      · rintro (h | ⟨hq, _⟩ | ⟨hq, _⟩)
        · exact h
        · exact absurd hq hxu
        · exact absurd hq hxv

theorem addRoad_sym (p : Planner) (u v : Nat) (dist : ℚ) (traf ty : Int)
    (name : String) (hs : SymGraph p) :
    SymGraph (addRoad p u v dist traf ty name) := by
  intro x hx e he
  rw [addRoad_adj_mem] at he
  rcases he with h | ⟨hx2, he2⟩ | ⟨hx2, he2⟩
  · obtain ⟨e2, he2, hd, h1, h2, h3⟩ := hs x hx e h
    refine ⟨e2, ?_, hd, h1, h2, h3⟩
    rw [addRoad_adj_mem]
    exact Or.inl he2
  · subst hx2
    subst he2
    refine ⟨⟨x, dist, traf, ty, name⟩, ?_, rfl, rfl, rfl, rfl⟩
    rw [addRoad_adj_mem]
    exact Or.inr (Or.inr ⟨rfl, rfl⟩)
  · subst hx2
    subst he2
    refine ⟨⟨x, dist, traf, ty, name⟩, ?_, rfl, rfl, rfl, rfl⟩
    rw [addRoad_adj_mem]
    exact Or.inr (Or.inl ⟨rfl, rfl⟩)

theorem buildPlanner_sym (cities : List CitySpec) (roads : List RoadSpec) :
    SymGraph (buildPlanner cities roads) := by
  unfold buildPlanner
  have hbase : SymGraph (cities.foldl (fun q c => addCity q c.cid c.cname) emptyPlanner) := by
    intro x hx e he
    rw [citiesFold_adj] at he
    exact absurd he (List.not_mem_nil e)
  revert hbase
  generalize (cities.foldl (fun q c => addCity q c.cid c.cname) emptyPlanner) = q
  intro hbase
  induction roads generalizing q with
  | nil => exact hbase
  | cons r rest ih =>
    rw [List.foldl_cons]
    exact ih _ (addRoad_sym q r.src r.dst r.dist r.traf r.rty r.rname hbase)

theorem path_reverse (p : Planner) (speed : Int) (hg : ValidGraph p)
    (hsym : SymGraph p) :
    ∀ (es : List Edge) (u v : Nat), IsPath p u v es → u < MAX_CITIES →
      ∃ es2, IsPath p v u es2 ∧ pathTime speed es2 = pathTime speed es := by
  intro es u v h
  induction h with
  | nil w =>
    intro _
    exact ⟨[], IsPath.nil w, rfl⟩
  | cons e he h2 ih =>
    rename_i u2 v2 es2
    intro hu
    have hd : e.destination < MAX_CITIES := (hg u2 hu e he).1
    obtain ⟨es2r, hp2r, ht2r⟩ := ih hd
    obtain ⟨e2, he2, hdest2, hdist2, htraf2, _⟩ := hsym u2 hu e he
    have happ : IsPath p v2 e2.destination (es2r ++ [e2]) :=
      IsPath_append_single p hp2r e2 he2
    rw [hdest2] at happ
    refine ⟨es2r ++ [e2], happ, ?_⟩
    rw [pathTime_append_single, ht2r, pathTime_cons]
    have het : edgeTime speed e2 = edgeTime speed e := by
      unfold edgeTime segmentTravelTime
      rw [hdist2, htraf2]
    rw [het]
    ring

theorem findRoute_symmetric (p : Planner) (speed : Int) (A B : Nat)
    (hg : ValidGraph p) (hsym : SymGraph p) (hsp : 0 < speed)
    (hcc : p.cityCount < MAX_CITIES) :
    totalTimeOf (findRoute p A B speed) = totalTimeOf (findRoute p B A speed) := by
  by_cases hvalid : A < 1 ∨ p.cityCount < A ∨ B < 1 ∨ p.cityCount < B
  · have hvalid2 : B < 1 ∨ p.cityCount < B ∨ A < 1 ∨ p.cityCount < A := by tauto
    unfold findRoute
    rw [if_pos hvalid, if_pos hvalid2]
  · have hvalid2 : ¬ (B < 1 ∨ p.cityCount < B ∨ A < 1 ∨ p.cityCount < A) := by tauto
    have hA1 : 1 ≤ A := by omega
    have hA2 : A ≤ p.cityCount := by omega
    have hB1 : 1 ≤ B := by omega
    have hB2 : B ≤ p.cityCount := by omega
    have hAM : A < MAX_CITIES := by omega
    have hBM : B < MAX_CITIES := by omega
    obtain ⟨m1, m2, m3⟩ :=
      findRoute_master p speed A B hg hsp hcc hA1 hA2 hB1 hB2
    obtain ⟨n1, n2, n3⟩ :=
      findRoute_master p speed B A hg hsp hcc hB1 hB2 hA1 hA2
    by_cases hex : ∃ es, IsPath p A B es ∧ pathTime speed es < INF
    · have hex2 : ∃ es, IsPath p B A es ∧ pathTime speed es < INF := by
        obtain ⟨es, h1, h2⟩ := hex
        obtain ⟨es2, h3, h4⟩ := path_reverse p speed hg hsym es A B h1 hAM
        refine ⟨es2, h3, ?_⟩
        rw [h4]
        exact h2
      obtain ⟨r1, hr1⟩ := m3 hex
      obtain ⟨r2, hr2⟩ := n3 hex2
      obtain ⟨_, es1, hp1, ht1, _, _, hmin1, _⟩ := m2 r1 hr1
      obtain ⟨_, es2, hp2, ht2, _, _, hmin2, _⟩ := n2 r2 hr2
      obtain ⟨es2r, hp2r, ht2r⟩ := path_reverse p speed hg hsym es2 B A hp2 hBM
      obtain ⟨es1r, hp1r, ht1r⟩ := path_reverse p speed hg hsym es1 A B hp1 hAM
      have h12 : r1.totalTime ≤ r2.totalTime := by
        have := hmin1 es2r hp2r
        rw [ht2r] at this
        rw [ht2]
        exact this
      have h21 : r2.totalTime ≤ r1.totalTime := by
        have := hmin2 es1r hp1r
        rw [ht1r] at this
        rw [ht1]
        exact this
      rw [hr1, hr2]
      show some r1.totalTime = some r2.totalTime
      rw [le_antisymm h12 h21]
    · have hex2 : ¬ ∃ es, IsPath p B A es ∧ pathTime speed es < INF := by
        rintro ⟨es, h1, h2⟩
        apply hex
        obtain ⟨es2, h3, h4⟩ := path_reverse p speed hg hsym es B A h1 hBM
        refine ⟨es2, h3, ?_⟩
        rw [h4]
        exact h2
      rw [m1 hex, n1 hex2]

/-- C7: on any graph built by addRoad (which always inserts both directed
entries of a road with identical attributes), the total travel time reported
for a query from A to B equals the one reported from B to A, for every pair
of cities and every positive speed; if one direction reports no route, so
does the other. -/
theorem C7_symmetry (cities : List CitySpec) (roads : List RoadSpec)
    (speed : Int) (A B : Nat)
    (hg : ValidGraph (buildPlanner cities roads)) (hsp : 0 < speed)
    (hcc : (buildPlanner cities roads).cityCount < MAX_CITIES) :
    totalTimeOf (findRoute (buildPlanner cities roads) A B speed) =
      totalTimeOf (findRoute (buildPlanner cities roads) B A speed) :=
  findRoute_symmetric (buildPlanner cities roads) speed A B hg
    (buildPlanner_sym cities roads) hsp hcc

/-- C7 witness: the two-city map, queried in both directions at 60 km/h. -/
theorem C7_symmetry_witness :
    totalTimeOf (findRoute (buildPlanner [⟨1, "A"⟩, ⟨2, "B"⟩]
        [⟨1, 2, 100, LOW, MOTORWAY, "R1"⟩]) 1 2 60) =
      totalTimeOf (findRoute (buildPlanner [⟨1, "A"⟩, ⟨2, "B"⟩]
        [⟨1, 2, 100, LOW, MOTORWAY, "R1"⟩]) 2 1 60) :=
  C7_symmetry [⟨1, "A"⟩, ⟨2, "B"⟩] [⟨1, 2, 100, LOW, MOTORWAY, "R1"⟩] 60 1 2
    (by unfold ValidGraph; decide) (by norm_num) (by decide)

theorem edgeTime_anti (e : Edge) (hd : 0 ≤ e.distanceKM) {s1 s2 : Int}
    (h1 : 0 < s1) (h12 : s1 ≤ s2) : edgeTime s2 e ≤ edgeTime s1 e := by
  unfold edgeTime segmentTravelTime
  have hm := getTrafficMultiplier_pos e.traffic
  have hs1 : (0 : ℚ) < (s1 : ℚ) := by exact_mod_cast h1
  have hs12 : (s1 : ℚ) ≤ (s2 : ℚ) := by exact_mod_cast h12
  have hdiv : e.distanceKM / (s2 : ℚ) ≤ e.distanceKM / (s1 : ℚ) := by
    gcongr
  have h60 : (0 : ℚ) ≤ 60 := by norm_num
  exact mul_le_mul_of_nonneg_right
    (mul_le_mul_of_nonneg_right hdiv h60) (le_of_lt hm)

theorem pathTime_anti (p : Planner) (hg : ValidGraph p) {s1 s2 : Int}
    (h1 : 0 < s1) (h12 : s1 ≤ s2) :
    ∀ (es : List Edge) (u v : Nat), IsPath p u v es → u < MAX_CITIES →
      pathTime s2 es ≤ pathTime s1 es := by
  intro es u v h
  induction h with
  | nil w =>
    intro _
    simp [pathTime_nil]
  | cons e he h2 ih =>
    rename_i u2 v2 es2
    intro hu
    obtain ⟨hd, hdpos⟩ := hg u2 hu e he
    rw [pathTime_cons, pathTime_cons]
    exact add_le_add (edgeTime_anti e (le_of_lt hdpos) h1 h12) (ih hd)

/-- C8: with traffic fixed, increasing the speed never increases the travel
time of any fixed path, and never increases the minimal total travel time
findRoute reports for a given start and end pair: whenever the slower query
reports a route, the faster query reports one with a total time at most as
large. -/
theorem C8_speed_monotonicity (p : Planner) (s1 s2 : Int) (A B : Nat)
    (hg : ValidGraph p) (hcc : p.cityCount < MAX_CITIES)
    (h1 : 0 < s1) (h12 : s1 < s2)
    (hA1 : 1 ≤ A) (hA2 : A ≤ p.cityCount) (hB1 : 1 ≤ B) (hB2 : B ≤ p.cityCount) :
    (∀ (u v : Nat) (es : List Edge), IsPath p u v es → u < MAX_CITIES →
      pathTime s2 es ≤ pathTime s1 es) ∧
    (∀ r1, findRoute p A B s1 = RouteOutcome.ok r1 →
      ∃ r2, findRoute p A B s2 = RouteOutcome.ok r2 ∧
        r2.totalTime ≤ r1.totalTime) := by
  have h2pos : 0 < s2 := by omega
  have hAM : A < MAX_CITIES := by omega
  constructor
  · intro u v es h hu
    exact pathTime_anti p hg h1 (le_of_lt h12) es u v h hu
  · intro r1 hr1
    obtain ⟨_, m2, _⟩ :=
      findRoute_master p s1 A B hg h1 hcc hA1 hA2 hB1 hB2
    obtain ⟨n1, n2, n3⟩ :=
      findRoute_master p s2 A B hg h2pos hcc hA1 hA2 hB1 hB2
    obtain ⟨hfin1, es1, hp1, ht1, _, _, hmin1, _⟩ := m2 r1 hr1
    have hle : pathTime s2 es1 ≤ pathTime s1 es1 :=
      pathTime_anti p hg h1 (le_of_lt h12) es1 A B hp1 hAM
    have hfin2 : pathTime s2 es1 < INF := by
      rw [ht1] at hfin1
      exact lt_of_le_of_lt hle hfin1
    obtain ⟨r2, hr2⟩ := n3 ⟨es1, hp1, hfin2⟩
    obtain ⟨_, es2, hp2, ht2, _, _, hmin2, _⟩ := n2 r2 hr2
    refine ⟨r2, hr2, ?_⟩
    have := hmin2 es1 hp1
    rw [ht1]
    exact le_trans this hle

/-- C8 witness: the two-city map queried at 50 and then 60 km/h; the slower
query reports the 120-minute route. -/
theorem C8_speed_monotonicity_witness :
    findRoute pW 1 2 50 =
      RouteOutcome.ok ⟨[⟨1, 2, "R1", "Clear", 100⟩], 120, 100, 25 / 4⟩ ∧
    ∃ r2, findRoute pW 1 2 60 = RouteOutcome.ok r2 ∧
      r2.totalTime ≤ (⟨[⟨1, 2, "R1", "Clear", 100⟩], 120, 100, 25 / 4⟩ :
        RouteResult).totalTime := by
  have heval : findRoute pW 1 2 50 =
      RouteOutcome.ok ⟨[⟨1, 2, "R1", "Clear", 100⟩], 120, 100, 25 / 4⟩ := by
    norm_num [findRoute, routeOutcomeOf, totalDeg, dijkstraLoop, initState, popMin,
      relaxEdges, relax1, edgeTime, segmentTravelTime, getTrafficMultiplier, fuelSeg,
      calculateFuelEfficiency, printDetailedReceipt, backtrack, mkLegs, mkLeg,
      getTrafficString, buildPlanner, addCity, addRoad, emptyPlanner, Function.update,
      MAX_CITIES, INF, LOW, MODERATE, HIGH, JAMMED, MOTORWAY, HIGHWAY, LOCAL, pW,
      Finset.sum_range_succ, Finset.sum_range_zero]
  exact ⟨heval,
    (C8_speed_monotonicity pW 50 60 1 2 pW_valid (by decide) (by norm_num)
      (by norm_num) (by decide) (by decide) (by decide) (by decide)).2 _ heval⟩

theorem int_toNat_one : Int.toNat 1 = 1 := by simp

theorem int_toNat_two : Int.toNat 2 = 2 := by simp

theorem int_toNat_three : Int.toNat 3 = 3 := by simp

theorem find?_eq_of_unique (l : List Edge) (e0 : Edge) (v : Nat)
    (hmem : e0 ∈ l) (he0 : e0.destination = v)
    (huniq : ∀ x ∈ l, x.destination = v → x = e0) :
    l.find? (fun x => x.destination == v) = some e0 := by
  induction l with
  | nil => exact absurd hmem (List.not_mem_nil e0)
  | cons a rest ih =>
    by_cases ha : a.destination = v
    · have hae : a = e0 := huniq a (List.mem_cons_self a rest) ha
      subst hae
      rw [List.find?_cons_of_pos]
      simp [ha]
    · rw [List.find?_cons_of_neg]
      · apply ih
        · rcases List.mem_cons.mp hmem with h | h
          · exfalso
            rw [← h] at ha
            exact ha he0
          · exact h
        · intro x hx hxv
          exact huniq x (List.mem_cons_of_mem a hx) hxv
      · simp [ha]

/-- C9 (amended): when two registered cities A and B are joined by exactly
one direct road and that road is strictly faster than every other path from
A to B (and its time is below the INF sentinel), findRoute returns a result
whose legs are exactly the single direct leg, with the registered road data
and the registered length as total distance. -/
theorem C9_direct_road_single_leg (p : Planner) (speed : Int) (A B : Nat)
    (e0 : Edge) (hg : ValidGraph p) (hsp : 0 < speed)
    (hcc : p.cityCount < MAX_CITIES)
    (hA1 : 1 ≤ A) (hA2 : A ≤ p.cityCount) (hB1 : 1 ≤ B) (hB2 : B ≤ p.cityCount)
    (he0 : e0 ∈ p.adj A) (hdest : e0.destination = B)
    (huniq : ∀ x ∈ p.adj A, x.destination = B → x = e0)
    (hfast : ∀ es, IsPath p A B es → es ≠ [e0] →
      pathTime speed [e0] < pathTime speed es)
    (hfin : pathTime speed [e0] < INF) :
    ∃ r, findRoute p A B speed = RouteOutcome.ok r ∧
      r.legs = [⟨A, B, e0.roadName, getTrafficString e0.traffic, e0.distanceKM⟩] ∧
      r.totalDist = e0.distanceKM ∧
      r.totalTime = pathTime speed [e0] := by
  have hp0 : IsPath p A B [e0] :=
    hdest ▸ IsPath.cons e0 he0 (IsPath.nil e0.destination)
  obtain ⟨m1, m2, m3⟩ :=
    findRoute_master p speed A B hg hsp hcc hA1 hA2 hB1 hB2
  obtain ⟨r, hr⟩ := m3 ⟨[e0], hp0, hfin⟩
  obtain ⟨hfinr, es, hpes, ht, hd, hfu, hmin, hlegs⟩ := m2 r hr
  have heseq : es = [e0] := by
    by_contra hne
    have h1 := hfast es hpes hne
    have h2 := hmin [e0] hp0
    rw [ht] at h2
    linarith
  subst heseq
  refine ⟨r, hr, ?_, ?_, ht⟩
  · rw [hlegs]
    have hstep : mkLegs p (pathVertices A [e0]) = [mkLeg p A e0.destination] := rfl
    rw [hstep]
    have hfind : (p.adj A).find? (fun x => x.destination == e0.destination) =
        some e0 := by
      apply find?_eq_of_unique (p.adj A) e0 e0.destination he0 rfl
      intro x hx hxv
      apply huniq x hx
      rw [hxv, hdest]
    have hmkleg : mkLeg p A e0.destination =
        ⟨A, e0.destination, e0.roadName, getTrafficString e0.traffic,
          e0.distanceKM⟩ := by
      unfold mkLeg
      rw [hfind]
    rw [hmkleg, hdest]
  · rw [hd]
    simp [pathDistSum]

theorem pW_adj1 : pW.adj 1 = [wEdge] := by decide

theorem pW_adj2 : pW.adj 2 = [wEdgeRev] := by decide

theorem pW_edge_time : edgeTime 60 wEdge = 100 := by
  norm_num [edgeTime, segmentTravelTime, getTrafficMultiplier, wEdge, LOW]

theorem pW_edge_time_rev : edgeTime 60 wEdgeRev = 100 := by
  norm_num [edgeTime, segmentTravelTime, getTrafficMultiplier, wEdgeRev, LOW]

theorem pW_path_time :
    ∀ (es : List Edge) (u v : Nat), IsPath pW u v es → (u = 1 ∨ u = 2) →
      pathTime 60 es = 100 * es.length := by
  intro es u v h
  induction h with
  | nil w =>
    intro _
    simp [pathTime_nil]
  | cons e he h2 ih =>
    rename_i u2 v2 es2
    intro hu
    rcases hu with rfl | rfl
    · rw [pW_adj1, List.mem_singleton] at he
      subst he
      rw [pathTime_cons, pW_edge_time, ih (Or.inr rfl)]
      simp [List.length_cons]
      ring
    · rw [pW_adj2, List.mem_singleton] at he
      subst he
      rw [pathTime_cons, pW_edge_time_rev, ih (Or.inl rfl)]
      simp [List.length_cons]
      ring

theorem pW_strict_fastest :
    ∀ es, IsPath pW 1 2 es → es ≠ [wEdge] →
      pathTime 60 [wEdge] < pathTime 60 es := by
  intro es hpath hne
  rw [pW_direct_time]
  have hlen := pW_path_time es 1 2 hpath (Or.inl rfl)
  rw [hlen]
  have h2 : 2 ≤ es.length := by
    rcases es with _ | ⟨x, es2⟩
    · cases hpath
    · rcases es2 with _ | ⟨y, es3⟩
      · exfalso
        cases hpath with
        | cons e he hrest =>
          rw [pW_adj1, List.mem_singleton] at he
          subst he
          exact hne rfl
      · simp [List.length_cons]
  have h2q : (2 : ℚ) ≤ (es.length : ℚ) := by exact_mod_cast h2
  nlinarith

/-- C9 witness: on the two-city map the unique 100 km direct road is the
strictly fastest route, and the query returns exactly that single leg. -/
theorem C9_direct_road_witness :
    wEdge ∈ pW.adj 1 ∧
    ∃ r, findRoute pW 1 2 60 = RouteOutcome.ok r ∧
      r.legs = [⟨1, 2, wEdge.roadName, getTrafficString wEdge.traffic,
        wEdge.distanceKM⟩] ∧
      r.totalDist = wEdge.distanceKM ∧
      r.totalTime = pathTime 60 [wEdge] :=
  ⟨pW_edge_mem,
    C9_direct_road_single_leg pW 60 1 2 wEdge pW_valid (by norm_num) (by decide)
      (by decide) (by decide) (by decide) (by decide) pW_edge_mem rfl
      (by decide) pW_strict_fastest pW_time_lt⟩

/-- C9 counterexample: cities 1 and 2 are joined by a direct (jammed) road,
yet the returned route has two legs, because the detour through city 3 is
faster — so a direct road does not imply a single-leg result. -/
theorem C9_counterexample :
    (∃ x ∈ pC9x.adj 1, x.destination = 2) ∧
    ∃ r, findRoute pC9x 1 2 60 = RouteOutcome.ok r ∧ r.legs.length = 2 := by
  constructor
  · exact ⟨⟨2, 100, JAMMED, MOTORWAY, "direct"⟩, by decide, rfl⟩
  · refine ⟨⟨[⟨1, 3, "a", "Clear", 10⟩, ⟨3, 2, "b", "Clear", 10⟩], 20, 20, 5 / 4⟩,
      ?_, rfl⟩
    norm_num [findRoute, routeOutcomeOf, totalDeg, dijkstraLoop, initState, popMin,
      relaxEdges, relax1, edgeTime, segmentTravelTime, getTrafficMultiplier, fuelSeg,
      calculateFuelEfficiency, printDetailedReceipt, backtrack, mkLegs, mkLeg,
      getTrafficString, buildPlanner, addCity, addRoad, emptyPlanner, Function.update,
      MAX_CITIES, INF, LOW, MODERATE, HIGH, JAMMED, MOTORWAY, HIGHWAY, LOCAL, pC9x,
      int_toNat_one, int_toNat_two, int_toNat_three,
      Finset.sum_range_succ, Finset.sum_range_zero]

end RoutePlanner
